import Mathlib

/-!
A verification development for the DevBrag data-retrieval and aggregation
pipeline.  The TypeScript source is shallowly embedded into Lean:

* the domain records (`GitHubRepo`, `GitHubPR`, `GitHubCommit`) mirror the
  interfaces of `types.ts`;
* the Repository Reconciler is the pure filtering logic of
  `handleFetchStats` in `App.tsx` (lines 96-109);
* the Pager (`fetchSearchPages`), the event fetchers
  (`fetchUserPullRequests`, `fetchUserCommits`) and the detail enricher are
  embedded from `services/githubService.ts`, with the network modelled as an
  explicit oracle and the requests issued recorded in an explicit log;
* the Timeline Aggregator is the `chartData` computation of
  `ActivityChart.tsx`, with JavaScript `Date` values embedded as civil
  (year, month, day) triples and the insertion-ordered `Map` embedded as an
  association list.

The file is organized as definitions first, then theorems.
-/

namespace DevBrag

/-! ## Domain records (types.ts) -/

/-- Repository descriptor as in `types.ts`.  The source field `private` is
renamed `isPrivate` (a Lean keyword); `url` is the machine/API URL and
`html_url` the human-facing URL. -/
structure GitHubRepo where
  id : Nat
  name : String
  full_name : String
  isPrivate : Bool
  html_url : String
  url : String
  description : Option String
  language : Option String
  updated_at : String
deriving DecidableEq

/-- Pull-request event as produced by `fetchUserPullRequests`: the fields of
the `types.ts` interface plus the transient `api_url` that the service layer
adds to drive detail enrichment.  Optional JS fields are embedded as
`Option`. -/
structure GitHubPR where
  id : Nat
  number : Nat
  title : String
  html_url : String
  api_url : String
  state : String
  created_at : String
  merged_at : Option String
  body : Option String
  repository_url : String
  additions : Option Int
  deletions : Option Int
deriving DecidableEq

/-- Commit event as in `types.ts`: `html_url` is the commit's own human URL,
`repository_url` the owning repository's human URL (or the `Unknown Repo`
sentinel). -/
structure GitHubCommit where
  sha : String
  message : String
  html_url : String
  date : String
  repository_url : String
deriving DecidableEq

/-- JavaScript `s.startsWith(p)` embedded as a character-list prefix test. -/
def strStartsWith (s p : String) : Bool := p.data.isPrefixOf s.data

/-- JavaScript `x || dflt` on an optional string: `undefined` and the empty
string are falsy and fall through to the default. -/
def jsOrString (o : Option String) (dflt : String) : String :=
  match o with
  | none => dflt
  | some s => if s = "" then dflt else s

/-- JavaScript `x || null` on an optional string: the empty string is falsy
and collapses to `null`. -/
def jsOrNull (o : Option String) : Option String :=
  match o with
  | none => none
  | some s => if s = "" then none else some s

/-! ## Repository Reconciler (App.tsx, handleFetchStats lines 96-109) -/

/-- `selectedRepoUrls`: the machine/API URLs of the repositories whose ids
are selected (`state.repositories.filter(...).map(r => r.url)`).  The JS
`Set` of ids is embedded as a list queried by membership. -/
def selectedRepoUrls (repositories : List GitHubRepo) (selectedRepoIds : List Nat) : List String :=
  (repositories.filter (fun r => selectedRepoIds.contains r.id)).map (fun r => r.url)

/-- `filteredPrs`: a PR is kept iff its `repository_url` is a member of the
selected machine-URL set (`allPrs.filter(pr => selectedRepoUrls.has(pr.repository_url))`). -/
def filteredPrs (repositories : List GitHubRepo) (selectedRepoIds : List Nat)
    (allPrs : List GitHubPR) : List GitHubPR :=
  allPrs.filter (fun pr => (selectedRepoUrls repositories selectedRepoIds).contains pr.repository_url)

/-- `filteredCommits`: a commit is kept iff some selected repository's human
URL is a string prefix of the commit's own `html_url`
(`c.html_url.startsWith(r.html_url)` embedded via `strStartsWith`). -/
def filteredCommits (repositories : List GitHubRepo) (selectedRepoIds : List Nat)
    (allCommits : List GitHubCommit) : List GitHubCommit :=
  allCommits.filter (fun c =>
    repositories.any (fun r =>
      selectedRepoIds.contains r.id && strStartsWith c.html_url r.html_url))

/-- The reconcile entry point: filtered PRs and filtered commits, as set into
the application state by `handleFetchStats`. -/
def reconcile (repositories : List GitHubRepo) (selectedRepoIds : List Nat)
    (allPrs : List GitHubPR) (allCommits : List GitHubCommit) :
    List GitHubPR × List GitHubCommit :=
  (filteredPrs repositories selectedRepoIds allPrs,
   filteredCommits repositories selectedRepoIds allCommits)

/-! ## Decimal rendering of numbers

JavaScript template literals render numbers in decimal
(`` `${page}` ``, `` `${year}` ``); `String(x).padStart(2, '0')` pads with
leading zeros.  The digit-list renderer is given structural fuel so that it
reduces by `decide`/`rfl`. -/

/-- Decimal digits of `n`, most significant first; `fuel` bounds the
recursion depth and `n + 1` is always sufficient. -/
def natDigitsAux : Nat → Nat → List Char
  | 0, _ => []
  | fuel + 1, n =>
    if n < 10 then [Nat.digitChar n]
    else natDigitsAux fuel (n / 10) ++ [Nat.digitChar (n % 10)]

/-- Decimal digit string of a natural number, as JavaScript renders it. -/
def natDigits (n : Nat) : List Char := natDigitsAux (n + 1) n

/-- Decimal rendering as a `String`. -/
def natStr (n : Nat) : String := String.mk (natDigits n)

/-- `padStart(k, '0')` on a character list. -/
def padStartZeros (k : Nat) (l : List Char) : List Char :=
  List.replicate (k - l.length) '0' ++ l

/-- Two-digit zero-padded rendering (`String(x).padStart(2, '0')`). -/
def pad2 (n : Nat) : List Char := padStartZeros 2 (natDigits n)

/-- Four-digit zero-padded rendering (the year field of `toISOString` for
years 0-9999). -/
def pad4 (n : Nat) : List Char := padStartZeros 4 (natDigits n)

/-- Reads a digit string back as a number (each character contributes its
distance from `'0'`).  Used to prove the renderings injective. -/
def unpadDigits (l : List Char) : Nat :=
  l.foldl (fun a c => a * 10 + (c.toNat - 48)) 0

/-! ## The Pager (githubService.ts, fetchSearchPages)

The network is an oracle from URLs to responses; the requests issued are
returned alongside the result as an explicit log.  A request failure aborts
the whole operation with the error produced by `handleErrors`. -/

/-- A search-endpoint HTTP response: status, status text, and the parsed
`data.items || []` payload. -/
structure PageResp (α : Type) where
  status : Nat
  statusText : String
  items : List α

def GITHUB_API_BASE : String := "https://api.github.com"

/-- `handleErrors` from githubService.ts: maps non-2xx statuses to the
error taxonomy.  `response.ok` is status in [200, 300). -/
def handleErrors (status : Nat) (statusText : String) : Except String Unit :=
  if 200 ≤ status ∧ status < 300 then Except.ok ()
  else if status = 403 then Except.error "GitHub API rate limit exceeded. Please try again later."
  else if status = 401 then Except.error "Invalid GitHub Token."
  else if status = 422 then Except.error "Validation Failed. Try a shorter date range."
  else Except.error ("GitHub API Error: " ++ statusText)

/-- The page-templated request URL: `` `${url}&page=${currentPage}` ``. -/
def pageUrl (url : String) (page : Nat) : String := url ++ "&page=" ++ natStr page

/-- The body of the `while (currentPage <= maxPages)` loop of
`fetchSearchPages`, with structural fuel (`maxPages + 1` frames always
suffice).  Appends each page's items, stops on an error, an empty page, a
short page (< 100 items) or past the ceiling, and records each page URL
requested. -/
def fetchSearchPagesAux {α : Type} (net : String → PageResp α) (url : String) (maxPages : Nat) :
    Nat → Nat → List α → List String → Except String (List α) × List String
  | 0, _, allItems, log => (Except.ok allItems, log)
  | fuel + 1, currentPage, allItems, log =>
    if currentPage ≤ maxPages then
      match handleErrors (net (pageUrl url currentPage)).status (net (pageUrl url currentPage)).statusText with
      | Except.error e => (Except.error e, log ++ [pageUrl url currentPage])
      | Except.ok _ =>
        if (net (pageUrl url currentPage)).items.length = 0 then
          (Except.ok allItems, log ++ [pageUrl url currentPage])
        else if (net (pageUrl url currentPage)).items.length < 100 then
          (Except.ok (allItems ++ (net (pageUrl url currentPage)).items), log ++ [pageUrl url currentPage])
        else
          fetchSearchPagesAux net url maxPages fuel (currentPage + 1)
            (allItems ++ (net (pageUrl url currentPage)).items) (log ++ [pageUrl url currentPage])
    else (Except.ok allItems, log)

/-- `fetchSearchPages(url, headers, maxPages)`: pages are requested starting
at page 1. -/
def fetchSearchPages {α : Type} (net : String → PageResp α) (url : String) (maxPages : Nat) :
    Except String (List α) × List String :=
  fetchSearchPagesAux net url maxPages (maxPages + 1) 1 [] []

/-- The items of page `n` as served by the oracle. -/
def pageItems {α : Type} (net : String → PageResp α) (url : String) (n : Nat) : List α :=
  (net (pageUrl url n)).items

/-- First page index in `[n, maxPages]` whose length is short (< 100),
or `maxPages` if none is; structural fuel (`maxPages` suffices from 1). -/
def firstShortStopAux (pageLen : Nat → Nat) (maxPages : Nat) : Nat → Nat → Nat
  | 0, _ => maxPages
  | fuel + 1, n =>
    if n < maxPages then
      (if pageLen n < 100 then n else firstShortStopAux pageLen maxPages fuel (n + 1))
    else maxPages

/-- The index of the last page the Pager requests: the first empty or short
page, or the ceiling, whichever comes first (0 when the ceiling is 0). -/
def firstShortStop (pageLen : Nat → Nat) (maxPages : Nat) : Nat :=
  if maxPages = 0 then 0 else firstShortStopAux pageLen maxPages maxPages 1

/-! ## PR fetcher and Detail Enricher (githubService.ts, fetchUserPullRequests) -/

/-- Raw item of the issue-search endpoint, with the fields the mapping in
`fetchUserPullRequests` reads (`item.pull_request?.merged_at` is embedded as
an optional field). -/
structure RawPRItem where
  id : Nat
  number : Nat
  title : String
  html_url : String
  url : String
  state : String
  created_at : String
  pull_request_merged_at : Option String
  body : Option String
  repository_url : String
deriving DecidableEq

/-- The basic-info mapping of a raw search item
(`merged_at: item.pull_request?.merged_at || null`; no size impact yet). -/
def toBasicPR (item : RawPRItem) : GitHubPR :=
  { id := item.id, number := item.number, title := item.title,
    html_url := item.html_url, api_url := item.url, state := item.state,
    created_at := item.created_at,
    merged_at := jsOrNull item.pull_request_merged_at,
    body := item.body, repository_url := item.repository_url,
    additions := none, deletions := none }

/-- Parsed body of a per-PR detail response together with `response.ok`. -/
structure DetailResp where
  ok : Bool
  additions : Option Int
  deletions : Option Int
deriving DecidableEq

/-- Per-item enrichment: one detail fetch keyed by the PR's API URL.  A
rejected fetch (oracle `none`, the `catch` branch) or a non-ok status leaves
the item unchanged; an ok response merges in the size-impact pair. -/
def enrichPR (detailNet : String → Option DetailResp) (pr : GitHubPR) : GitHubPR :=
  match detailNet pr.api_url with
  | none => pr
  | some resp =>
    if resp.ok then { pr with additions := resp.additions, deletions := resp.deletions }
    else pr

/-- The Detail Enricher: enrich `slice(0, 20)` item by item, pass
`slice(20)` through unchanged, preserving order (`Promise.all` keeps the
positional order of its inputs). -/
def enrichPRs (detailNet : String → Option DetailResp) (basicPRs : List GitHubPR) : List GitHubPR :=
  (basicPRs.take 20).map (enrichPR detailNet) ++ basicPRs.drop 20

/-- `encodeURIComponent`: unreserved characters pass through, everything
else (in the ASCII model) is percent-encoded. -/
def encodeChar (c : Char) : List Char :=
  if c.isAlphanum || c = '-' || c = '_' || c = '.' || c = '!' || c = '~' ||
      c = '*' || c = Char.ofNat 39 || c = '(' || c = ')' then [c]
  else
    ['%', Nat.digitChar (c.toNat / 16 % 16), Nat.digitChar (c.toNat % 16)].map Char.toUpper

def encodeURIComponent (s : String) : String :=
  String.mk ((s.data.map encodeChar).flatten)

/-- The issue-search URL of `fetchUserPullRequests`
(`author:user type:pr created:start..end`). -/
def prSearchUrl (username startDate endDate : String) : String :=
  GITHUB_API_BASE ++ "/search/issues?q=" ++
    encodeURIComponent ("author:" ++ username ++ " type:pr created:" ++ startDate ++ ".." ++ endDate) ++
    "&per_page=100&sort=created&order=desc"

/-- `fetchUserPullRequests`: guard on an empty login, drive the Pager for up
to 10 pages, map raw items to basic PRs, then enrich the first 20.  The
second component is the log of requests issued (search pages, then detail
URLs).  The catch-and-rethrow of the source preserves the pager error
message. -/
def fetchUserPullRequests (searchNet : String → PageResp RawPRItem)
    (detailNet : String → Option DetailResp)
    (username token startDate endDate : String) :
    Except String (List GitHubPR) × List String :=
  if username = "" then (Except.error "Username is required", [])
  else
    match fetchSearchPages searchNet (prSearchUrl username startDate endDate) 10 with
    | (Except.error e, log) => (Except.error e, log)
    | (Except.ok items, log) =>
      (Except.ok (enrichPRs detailNet (items.map toBasicPR)),
       log ++ ((items.map toBasicPR).take 20).map (fun pr => pr.api_url))

/-! ## Commit fetcher (githubService.ts, fetchUserCommits) -/

/-- The optional `repository` object of a raw commit-search item. -/
structure RawRepoRef where
  html_url : Option String
deriving DecidableEq

/-- Raw item of the commit-search endpoint with the fields the mapping in
`fetchUserCommits` reads (`item.commit.message`, `item.commit.author.date`). -/
structure RawCommitItem where
  sha : String
  commit_message : String
  commit_author_date : String
  html_url : String
  repository : Option RawRepoRef
deriving DecidableEq

/-- Normalization of a raw commit item:
`repository_url: item.repository?.html_url || 'Unknown Repo'`. -/
def toCommit (item : RawCommitItem) : GitHubCommit :=
  { sha := item.sha, message := item.commit_message, html_url := item.html_url,
    date := item.commit_author_date,
    repository_url := jsOrString (item.repository.bind (fun r => r.html_url)) "Unknown Repo" }

/-- The commit-search URL of `fetchUserCommits`
(`author:user committer-date:start..end`). -/
def commitSearchUrl (username startDate endDate : String) : String :=
  GITHUB_API_BASE ++ "/search/commits?q=" ++
    encodeURIComponent ("author:" ++ username ++ " committer-date:" ++ startDate ++ ".." ++ endDate) ++
    "&per_page=100&sort=committer-date&order=desc"

/-- `fetchUserCommits`: guard on an empty login, drive the Pager for up to
10 pages, normalize raw items. -/
def fetchUserCommits (searchNet : String → PageResp RawCommitItem)
    (username token startDate endDate : String) :
    Except String (List GitHubCommit) × List String :=
  if username = "" then (Except.error "Username is required", [])
  else
    match fetchSearchPages searchNet (commitSearchUrl username startDate endDate) 10 with
    | (Except.error e, log) => (Except.error e, log)
    | (Except.ok items, log) => (Except.ok (items.map toCommit), log)

/-- The per-position frame of a PR that enrichment must not disturb: every
field other than the optional additions/deletions size-impact pair. -/
def FrameEq (a b : GitHubPR) : Prop :=
  a.id = b.id ∧ a.number = b.number ∧ a.title = b.title ∧ a.html_url = b.html_url ∧
  a.api_url = b.api_url ∧ a.state = b.state ∧ a.created_at = b.created_at ∧
  a.merged_at = b.merged_at ∧ a.body = b.body ∧ a.repository_url = b.repository_url

/-! ## Concrete fixtures -/

/-- A selected repository with human URL `https://host/org/repo`. -/
def repoSel : GitHubRepo :=
  { id := 1, name := "repo", full_name := "org/repo", isPrivate := false,
    html_url := "https://host/org/repo", url := "https://api.host/repos/org/repo",
    description := none, language := none, updated_at := "2024-01-01T00:00:00Z" }

/-- A commit that lives under repository `https://host/org/repo`. -/
def commitUnderRepo : GitHubCommit :=
  { sha := "abc", message := "fix", html_url := "https://host/org/repo/commit/abc",
    date := "2024-01-02T00:00:00Z", repository_url := "https://host/org/repo" }

/-- A commit that lives under the sibling repository `https://host/org/repo2`. -/
def commitUnderRepo2 : GitHubCommit :=
  { sha := "def", message := "feat", html_url := "https://host/org/repo2/commit/def",
    date := "2024-01-03T00:00:00Z", repository_url := "https://host/org/repo2" }

/-- A search endpoint URL for pager scenarios. -/
def exUrl : String := "https://api.github.com/search/issues?q=x&per_page=100"

/-- A provider that serves three full pages of 100 items, then a page of
40, then empty pages. -/
def exPagerNet : String → PageResp Nat := fun u =>
  { status := 200, statusText := "OK",
    items :=
      if u = pageUrl exUrl 1 then List.range 100
      else if u = pageUrl exUrl 2 then (List.range 100).map (fun n => 100 + n)
      else if u = pageUrl exUrl 3 then (List.range 100).map (fun n => 200 + n)
      else if u = pageUrl exUrl 4 then (List.range 40).map (fun n => 300 + n)
      else [] }

/-- A small PR fixture indexed by `n`, with a distinct API URL per index. -/
def mkPR (n : Nat) : GitHubPR :=
  { id := n, number := n, title := "t", html_url := "h",
    api_url := String.mk ('u' :: natDigits n), state := "open",
    created_at := "2024-01-01T00:00:00Z", merged_at := none, body := none,
    repository_url := "r", additions := none, deletions := none }

/-- 25 PR fixtures. -/
def exPRs : List GitHubPR := (List.range 25).map mkPR

/-- A detail oracle that fails (rejects) exactly on item 5's API URL and
answers every other URL with an ok response. -/
def exDetailNet : String → Option DetailResp := fun u =>
  if u = (mkPR 5).api_url then none
  else some { ok := true, additions := some 10, deletions := some 3 }

/-- The index of the last page the Pager requests against a given oracle. -/
def pagerStop {α : Type} (net : String → PageResp α) (url : String) (maxPages : Nat) : Nat :=
  firstShortStop (fun k => (pageItems net url k).length) maxPages

/-! ## Civil dates

JavaScript `Date` values, always at UTC midnight here, are embedded as
civil (year, month, day) triples; `month` is 1-based (`getMonth() + 1`).
`getTime` is embedded up to the constant offset of the Unix epoch: only
differences and the order of `getTime` values are ever used by the chart
code, and both are invariant under a constant shift. -/

structure CivilDate where
  year : Nat
  month : Nat
  day : Nat
deriving DecidableEq

/-- The Gregorian leap-year rule used by JS dates. -/
def isLeap (y : Nat) : Bool := (y % 4 == 0 && y % 100 != 0) || y % 400 == 0

def daysInMonth (y m : Nat) : Nat :=
  match m with
  | 2 => if isLeap y then 29 else 28
  | 4 => 30
  | 6 => 30
  | 9 => 30
  | 11 => 30
  | _ => 31

/-- Days strictly before month `m` within a year. -/
def daysBeforeMonth (y : Nat) : Nat → Nat
  | 0 => 0
  | 1 => 0
  | m + 2 => daysBeforeMonth y (m + 1) + daysInMonth y (m + 1)

def yearDays (y : Nat) : Nat := if isLeap y then 366 else 365

/-- Days in all years from 1 through `y - 1`. -/
def daysBeforeYear : Nat → Nat
  | 0 => 0
  | 1 => 0
  | y + 2 => daysBeforeYear (y + 1) + yearDays (y + 1)

/-- Day number of a civil date on a linear day scale. -/
def rataDie (d : CivilDate) : Nat :=
  daysBeforeYear d.year + daysBeforeMonth d.year d.month + d.day

/-- `Date.prototype.getTime` in milliseconds, up to the constant Unix-epoch
offset. -/
def getTime (d : CivilDate) : Int := (rataDie d : Int) * 86400000

def ValidDate (d : CivilDate) : Prop :=
  1 ≤ d.year ∧ 1 ≤ d.month ∧ d.month ≤ 12 ∧ 1 ≤ d.day ∧ d.day ≤ daysInMonth d.year d.month

instance : DecidablePred ValidDate := fun d => by unfold ValidDate; infer_instance

/-- `current.setDate(current.getDate() + 1)` on a valid date: JS normalizes
a day overflow into the next month or year. -/
def nextDay (d : CivilDate) : CivilDate :=
  if d.day < daysInMonth d.year d.month then ⟨d.year, d.month, d.day + 1⟩
  else if d.month < 12 then ⟨d.year, d.month + 1, 1⟩
  else ⟨d.year + 1, 1, 1⟩

/-- `current.setMonth(current.getMonth() + 1)`: JS normalizes a month
overflow into January of the next year (the day, always 1 in the monthly
walk, is kept). -/
def nextMonth (d : CivilDate) : CivilDate :=
  if d.month < 12 then ⟨d.year, d.month + 1, d.day⟩
  else ⟨d.year + 1, 1, d.day⟩

/-- Month index `12 * year + month`: the measure of the monthly walk. -/
def monthIdx (d : CivilDate) : Nat := 12 * d.year + d.month

/-! ## Timeline Aggregator (ActivityChart.tsx) -/

/-- Monthly bucket key `` `${getFullYear()}-${String(getMonth()+1).padStart(2,'0')}` ``. -/
def monthKeyChars (y m : Nat) : List Char := natDigits y ++ '-' :: pad2 m

/-- Daily bucket key `toISOString().split('T')[0]`, i.e. `YYYY-MM-DD` for
years 0-9999. -/
def dayKeyChars (y m dd : Nat) : List Char := pad4 y ++ '-' :: pad2 m ++ '-' :: pad2 dd

/-- English short month name (the `toLocaleDateString` rendering of the
source is locale/environment dependent; labels carry no aggregated data and
no property below depends on them). -/
def monthShort (m : Nat) : String :=
  match m with
  | 1 => "Jan"
  | 2 => "Feb"
  | 3 => "Mar"
  | 4 => "Apr"
  | 5 => "May"
  | 6 => "Jun"
  | 7 => "Jul"
  | 8 => "Aug"
  | 9 => "Sep"
  | 10 => "Oct"
  | 11 => "Nov"
  | _ => "Dec"

/-- One bucket of the timeline (`ChartData` in ActivityChart.tsx). -/
structure ChartData where
  key : String
  label : String
  PRs : Nat
  Commits : Nat
  timestamp : Int
deriving DecidableEq

/-- The bucket key of a date at the chosen granularity. -/
def bucketKey (isMonthly : Bool) (d : CivilDate) : String :=
  if isMonthly then String.mk (monthKeyChars d.year d.month)
  else String.mk (dayKeyChars d.year d.month d.day)

/-- Display label (`MMM yy` monthly, `MMM d` daily, en-US rendering). -/
def bucketLabel (isMonthly : Bool) (d : CivilDate) : String :=
  if isMonthly then monthShort d.month ++ " " ++ String.mk (pad2 (d.year % 100))
  else monthShort d.month ++ " " ++ natStr d.day

/-- A freshly zero-filled bucket for a grid date. -/
def mkBucket (isMonthly : Bool) (d : CivilDate) : ChartData :=
  { key := bucketKey isMonthly d, label := bucketLabel isMonthly d,
    PRs := 0, Commits := 0, timestamp := getTime d }

/-- JS `Map.set`: replace in place if the key is present (a JS `Map` keeps
the original insertion position), else append. -/
def mapSet (m : List (String × ChartData)) (k : String) (v : ChartData) :
    List (String × ChartData) :=
  if m.any (fun p => p.1 == k) then m.map (fun p => if p.1 == k then (k, v) else p)
  else m ++ [(k, v)]

/-- The `while` condition of the bucket-generation loop:
`current <= endTarget || (isMonthly && same month && same year)` (JS
relational operators on dates compare `getTime`). -/
def loopCond (isMonthly : Bool) (current endTarget : CivilDate) : Bool :=
  decide (getTime current ≤ getTime endTarget) ||
    (isMonthly && current.month == endTarget.month && current.year == endTarget.year)

/-- The per-iteration date increment: one month or one day. -/
def bucketStep (isMonthly : Bool) (d : CivilDate) : CivilDate :=
  if isMonthly then nextMonth d else nextDay d

/-- The grid of dates the bucket loop visits: `k` steps from `d`. -/
def walk (isMonthly : Bool) : Nat → CivilDate → List CivilDate
  | 0, _ => []
  | k + 1, d => d :: walk isMonthly k (bucketStep isMonthly d)

/-- The zero-filling bucket-generation loop, with its `loops` counter and
the `if (loops++ > 1000) break` guard; structural fuel (1002 frames always
suffice, because the guard stops the loop after at most 1001 iterations). -/
def bucketLoop (isMonthly : Bool) (endTarget : CivilDate) :
    Nat → CivilDate → Nat → List (String × ChartData) → List (String × ChartData)
  | 0, _, _, dataMap => dataMap
  | fuel + 1, current, loops, dataMap =>
    if loopCond isMonthly current endTarget then
      if loops > 1000 then dataMap
      else
        bucketLoop isMonthly endTarget fuel (bucketStep isMonthly current) (loops + 1)
          (mapSet dataMap (bucketKey isMonthly current) (mkBucket isMonthly current))
    else dataMap

def digitVal (c : Char) : Option Nat :=
  if 48 ≤ c.toNat ∧ c.toNat ≤ 57 then some (c.toNat - 48) else none

/-- `new Date(dateStr)` restricted to ISO `YYYY-MM-DD` date or date-time
strings, which is what both the date inputs and the provider timestamps
are; out-of-range fields yield an invalid date (`none`, JS `NaN`). -/
def parseDate (s : String) : Option CivilDate :=
  match s.data with
  | c1 :: c2 :: c3 :: c4 :: '-' :: c5 :: c6 :: '-' :: c7 :: c8 :: rest =>
    match digitVal c1, digitVal c2, digitVal c3, digitVal c4,
        digitVal c5, digitVal c6, digitVal c7, digitVal c8 with
    | some a, some b, some c, some d, some e, some f, some g, some h =>
      if (rest = [] ∨ rest.head? = some 'T') ∧ 1 ≤ e * 10 + f ∧ e * 10 + f ≤ 12 ∧
          1 ≤ g * 10 + h ∧
          g * 10 + h ≤ daysInMonth (((a * 10 + b) * 10 + c) * 10 + d) (e * 10 + f) then
        some ⟨((a * 10 + b) * 10 + c) * 10 + d, e * 10 + f, g * 10 + h⟩
      else none
    | _, _, _, _, _, _, _, _ => none
  | _ => none

/-- `Math.ceil(a / b)` on non-negative integers. -/
def ceilDiv (a b : Nat) : Nat := (a + b - 1) / b

/-- `Math.ceil(Math.abs(end.getTime() - start.getTime()) / 86400000)`. -/
def diffDaysOf (s e : CivilDate) : Nat :=
  ceilDiv (getTime e - getTime s).natAbs 86400000

/-- The granularity decision `diffDays > 60` of ActivityChart.tsx. -/
def isMonthlyFor (s e : CivilDate) : Bool := decide (60 < diffDaysOf s e)

/-- The count increment `bucket[type] += 1`. -/
def bumpBucket (isPR : Bool) (c : ChartData) : ChartData :=
  if isPR then { c with PRs := c.PRs + 1 } else { c with Commits := c.Commits + 1 }

/-- `processItem`: parse the item timestamp, reduce it to the bucket key
shape, and increment the matching bucket in place; items whose key has no
bucket are silently dropped.  The map's keys are pairwise distinct (an
invariant of `mapSet`), so the in-place update of the one matching entry is
a pointwise map. -/
def processItem (isMonthly : Bool) (dataMap : List (String × ChartData))
    (dateStr : String) (isPR : Bool) : List (String × ChartData) :=
  match parseDate dateStr with
  | none => dataMap
  | some d =>
    dataMap.map (fun p => if p.1 == bucketKey isMonthly d then (p.1, bumpBucket isPR p.2) else p)

/-- The timeline relation used by the final
`sort((a, b) => a.timestamp - b.timestamp)`. -/
def tsLE (a b : ChartData) : Prop := a.timestamp ≤ b.timestamp

instance : DecidableRel tsLE := fun a b => by unfold tsLE; infer_instance

instance : IsTotal ChartData tsLE := ⟨fun a b => le_total a.timestamp b.timestamp⟩

instance : IsTrans ChartData tsLE := ⟨fun a b c hab hbc => le_trans hab hbc⟩

/-- The `chartData` computation of ActivityChart.tsx: parse the range
endpoints (an unparseable endpoint gives JS `NaN` comparisons, zero loop
iterations and an empty timeline), pick the granularity, zero-fill the grid
from the (monthly: first-of-month) start to the end target, fill in the PR
and commit counts, and sort the buckets by timestamp.  The comparator sort
is embedded as a stable insertion sort. -/
def chartData (prs : List GitHubPR) (commits : List GitHubCommit)
    (startDate endDate : String) : List ChartData :=
  match parseDate startDate, parseDate endDate with
  | some startD, some endD =>
    let isMonthly := isMonthlyFor startD endD
    let current := if isMonthly then { startD with day := 1 } else startD
    let endTarget := if isMonthly then { endD with day := 1 } else endD
    let dataMap := bucketLoop isMonthly endTarget 1002 current 0 []
    let dataMap := prs.foldl (fun m pr => processItem isMonthly m pr.created_at true) dataMap
    let dataMap := commits.foldl (fun m c => processItem isMonthly m c.date false) dataMap
    List.insertionSort tsLE (dataMap.map (fun p => p.2))
  | _, _ => []

/-- The number of calendar days spanned inclusively by `[s, e]`. -/
def daysSpanned (s e : CivilDate) : Nat := rataDie e + 1 - rataDie s

/-- The number of calendar months spanned inclusively by `[s, e]`. -/
def monthsSpanned (s e : CivilDate) : Nat := monthIdx e + 1 - monthIdx s

/-! # Theorems -/

/-! ## Reconciler characterizations -/

lemma mem_selectedRepoUrls {repositories : List GitHubRepo} {selectedRepoIds : List Nat}
    {u : String} :
    u ∈ selectedRepoUrls repositories selectedRepoIds ↔
      ∃ r ∈ repositories, r.id ∈ selectedRepoIds ∧ r.url = u := by
  simp only [selectedRepoUrls, List.mem_map, List.mem_filter, List.elem_iff]
  constructor
  · rintro ⟨r, ⟨hr, hid⟩, rfl⟩
    exact ⟨r, hr, by simpa using hid, rfl⟩
  · rintro ⟨r, hr, hid, rfl⟩
    exact ⟨r, ⟨hr, by simpa using hid⟩, rfl⟩

lemma mem_filteredPrs {repositories : List GitHubRepo} {selectedRepoIds : List Nat}
    {allPrs : List GitHubPR} {pr : GitHubPR} :
    pr ∈ filteredPrs repositories selectedRepoIds allPrs ↔
      pr ∈ allPrs ∧ pr.repository_url ∈ selectedRepoUrls repositories selectedRepoIds := by
  simp [filteredPrs, List.mem_filter, List.elem_iff]

lemma mem_filteredCommits {repositories : List GitHubRepo} {selectedRepoIds : List Nat}
    {allCommits : List GitHubCommit} {c : GitHubCommit} :
    c ∈ filteredCommits repositories selectedRepoIds allCommits ↔
      c ∈ allCommits ∧ ∃ r ∈ repositories,
        r.id ∈ selectedRepoIds ∧ strStartsWith c.html_url r.html_url = true := by
  simp only [filteredCommits, List.mem_filter, List.any_eq_true, Bool.and_eq_true,
    List.elem_iff, decide_eq_true_eq]

/-- C1 counterexample.  The claim asserts that a commit under
`https://host/org/repo2` is NOT retained when only the repository with human
URL `https://host/org/repo` is selected.  The code retains it: the selected
URL is a string prefix of `https://host/org/repo2/commit/def`, since prefix
matching does not respect path-segment boundaries. -/
theorem C1_counterexample :
    commitUnderRepo2 ∈ filteredCommits [repoSel] [1] [commitUnderRepo2] := by
  decide

/-- C1 (amended): the Repository Reconciler retains a commit iff the
commit's own human URL is prefixed by the human-facing URL of some selected
repository; in particular, a commit whose human URL is
`https://host/org/repo/commit/abc` is retained when the repository with
human URL `https://host/org/repo` is selected — and so is a commit under
`https://host/org/repo2`, because `https://host/org/repo` is a string
prefix of that commit's URL as well. -/
theorem C1_commit_retention_url_start :
    (∀ (repositories : List GitHubRepo) (selectedRepoIds : List Nat)
       (allCommits : List GitHubCommit) (c : GitHubCommit),
        c ∈ filteredCommits repositories selectedRepoIds allCommits ↔
          c ∈ allCommits ∧ ∃ r ∈ repositories,
            r.id ∈ selectedRepoIds ∧ strStartsWith c.html_url r.html_url = true) ∧
    commitUnderRepo ∈ filteredCommits [repoSel] [1] [commitUnderRepo, commitUnderRepo2] ∧
    commitUnderRepo2 ∈ filteredCommits [repoSel] [1] [commitUnderRepo, commitUnderRepo2] := by
  refine ⟨fun repositories selectedRepoIds allCommits c => mem_filteredCommits, ?_, ?_⟩ <;> decide

/-- C5: a PR is retained iff its owning-repository machine URL is a member
of the set of machine-facing URLs of the selected repositories (exact set
membership); that URL set is exactly the `url` fields of the selected
repositories. -/
theorem C5_pr_retention_exact_membership :
    (∀ (repositories : List GitHubRepo) (selectedRepoIds : List Nat)
       (allPrs : List GitHubPR) (pr : GitHubPR),
        pr ∈ filteredPrs repositories selectedRepoIds allPrs ↔
          pr ∈ allPrs ∧
            pr.repository_url ∈ selectedRepoUrls repositories selectedRepoIds) ∧
    (∀ (repositories : List GitHubRepo) (selectedRepoIds : List Nat) (u : String),
        u ∈ selectedRepoUrls repositories selectedRepoIds ↔
          ∃ r ∈ repositories, r.id ∈ selectedRepoIds ∧ r.url = u) :=
  ⟨fun _ _ _ _ => mem_filteredPrs, fun _ _ _ => mem_selectedRepoUrls⟩

/-- C8: reconciliation is idempotent — applying the Repository Reconciler a
second time to its own output, with the same catalog and the same selected
ids, returns the output unchanged. -/
theorem C8_reconcile_idempotent
    (repositories : List GitHubRepo) (selectedRepoIds : List Nat)
    (allPrs : List GitHubPR) (allCommits : List GitHubCommit) :
    reconcile repositories selectedRepoIds
      (reconcile repositories selectedRepoIds allPrs allCommits).1
      (reconcile repositories selectedRepoIds allPrs allCommits).2 =
    reconcile repositories selectedRepoIds allPrs allCommits := by
  simp [reconcile, filteredPrs, filteredCommits, List.filter_filter]

/-! ## Detail Enricher lemmas -/

lemma length_enrichPRs (detailNet : String → Option DetailResp) (prs : List GitHubPR) :
    (enrichPRs detailNet prs).length = prs.length := by
  simp [enrichPRs]
  omega

lemma enrichPR_frameEq (detailNet : String → Option DetailResp) (pr : GitHubPR) :
    FrameEq pr (enrichPR detailNet pr) := by
  unfold enrichPR
  rcases detailNet pr.api_url with _ | resp
  · exact ⟨rfl, rfl, rfl, rfl, rfl, rfl, rfl, rfl, rfl, rfl⟩
  · dsimp only
    split
    · exact ⟨rfl, rfl, rfl, rfl, rfl, rfl, rfl, rfl, rfl, rfl⟩
    · exact ⟨rfl, rfl, rfl, rfl, rfl, rfl, rfl, rfl, rfl, rfl⟩

lemma enrichPR_of_failure (detailNet : String → Option DetailResp) (pr : GitHubPR)
    (h : detailNet pr.api_url = none ∨
         ∃ r, detailNet pr.api_url = some r ∧ r.ok = false) :
    enrichPR detailNet pr = pr := by
  unfold enrichPR
  rcases h with h | ⟨r, hr, hok⟩
  · rw [h]
  · rw [hr]
    simp [hok]

lemma enrichPRs_getElem? (detailNet : String → Option DetailResp) (prs : List GitHubPR)
    (i : Nat) :
    (enrichPRs detailNet prs)[i]? =
      if i < 20 then (prs[i]?).map (enrichPR detailNet) else prs[i]? := by
  by_cases h : i < 20
  · simp only [h, if_pos]
    by_cases hi : i < prs.length
    · have hlen : i < ((prs.take 20).map (enrichPR detailNet)).length := by
        simp
        omega
      unfold enrichPRs
      rw [List.getElem?_append, if_pos hlen, List.getElem?_map, List.getElem?_take]
      simp [h]
    · have h1 : (enrichPRs detailNet prs)[i]? = none := by
        apply List.getElem?_eq_none
        rw [length_enrichPRs]
        omega
      have h2 : prs[i]? = none := List.getElem?_eq_none (by omega)
      rw [h1, h2]
      rfl
  · simp only [h, if_neg, if_false]
    have hmin : ((prs.take 20).map (enrichPR detailNet)).length = min 20 prs.length := by
      simp
    unfold enrichPRs
    rw [List.getElem?_append, if_neg (by omega : ¬ i < ((prs.take 20).map (enrichPR detailNet)).length)]
    rw [hmin, List.getElem?_drop]
    by_cases hlen : 20 ≤ prs.length
    · have : min 20 prs.length = 20 := by omega
      rw [this]
      congr 1
      omega
    · have h1 : prs[20 + (i - min 20 prs.length)]? = none :=
        List.getElem?_eq_none (by omega)
      have h2 : prs[i]? = none := List.getElem?_eq_none (by omega)
      rw [h1, h2]

/-- C6: the Detail Enricher attempts enrichment only on the first-20 prefix
and passes items beyond position 19 through unchanged, preserving order: at
every position `i` the output is the enrichment of the input item for
`i < 20` and the input item itself otherwise.  A per-item detail-fetch
failure (rejected fetch or non-ok status) degrades exactly that item to its
unenriched form; the enricher is a total function, so no per-item failure is
ever propagated to the caller. -/
theorem C6_enricher_first_twenty :
    ∀ (detailNet : String → Option DetailResp) (prs : List GitHubPR),
      (∀ i : Nat, (enrichPRs detailNet prs)[i]? =
        if i < 20 then (prs[i]?).map (enrichPR detailNet) else prs[i]?) ∧
      (∀ pr : GitHubPR,
        detailNet pr.api_url = none ∨
          (∃ r, detailNet pr.api_url = some r ∧ r.ok = false) →
        enrichPR detailNet pr = pr) :=
  fun detailNet prs =>
    ⟨enrichPRs_getElem? detailNet prs, fun pr h => enrichPR_of_failure detailNet pr h⟩

/-- C6 witness: on the 25-PR fixture with a detail oracle failing exactly on
item 5, position 21 passes through unchanged, position 3 is enriched, and
the failing item 5 degrades to its unenriched form. -/
theorem C6_witness :
    (enrichPRs exDetailNet exPRs)[21]? = exPRs[21]? ∧
    (enrichPRs exDetailNet exPRs)[3]? = (exPRs[3]?).map (enrichPR exDetailNet) ∧
    enrichPR exDetailNet (mkPR 5) = mkPR 5 := by
  refine ⟨?_, ?_, ?_⟩
  · have h := (C6_enricher_first_twenty exDetailNet exPRs).1 21
    simpa using h
  · have h := (C6_enricher_first_twenty exDetailNet exPRs).1 3
    simpa using h
  · exact (C6_enricher_first_twenty exDetailNet exPRs).2 (mkPR 5) (Or.inl (by decide))

/-- C9: enrichment is a frame-preserving per-position map — the output has
exactly the input's length, and at every position every field other than the
optional additions/deletions size-impact pair equals the input item's field
(enrichment never removes, reorders, or otherwise modifies items). -/
theorem C9_enrichment_frame :
    ∀ (detailNet : String → Option DetailResp) (prs : List GitHubPR),
      (enrichPRs detailNet prs).length = prs.length ∧
      List.Forall₂ FrameEq prs (enrichPRs detailNet prs) := by
  intro detailNet prs
  refine ⟨length_enrichPRs detailNet prs, ?_⟩
  have htake : List.Forall₂ FrameEq (prs.take 20) ((prs.take 20).map (enrichPR detailNet)) := by
    rw [List.forall₂_map_right_iff]
    exact List.forall₂_same.mpr (fun a _ => enrichPR_frameEq detailNet a)
  have hdrop : List.Forall₂ FrameEq (prs.drop 20) (prs.drop 20) :=
    List.forall₂_same.mpr (fun a _ => ⟨rfl, rfl, rfl, rfl, rfl, rfl, rfl, rfl, rfl, rfl⟩)
  have key : List.Forall₂ FrameEq (prs.take 20 ++ prs.drop 20)
      ((prs.take 20).map (enrichPR detailNet) ++ prs.drop 20) :=
    List.rel_append htake hdrop
  rw [List.take_append_drop] at key
  exact key

/-! ## Input-error guard (C7) -/

/-- C7: calling the PR fetcher or the commit fetcher with an empty login
fails with the input error `Username is required` immediately — for every
network oracle the result is that error together with an empty request log,
so the failure precedes any network request and is never a network-level
failure. -/
theorem C7_empty_login_input_error :
    ∀ (searchNet : String → PageResp RawPRItem) (detailNet : String → Option DetailResp)
      (commitNet : String → PageResp RawCommitItem) (token startDate endDate : String),
      fetchUserPullRequests searchNet detailNet "" token startDate endDate =
        (Except.error "Username is required", []) ∧
      fetchUserCommits commitNet "" token startDate endDate =
        (Except.error "Username is required", []) := by
  intro searchNet detailNet commitNet token startDate endDate
  constructor <;> rfl

/-! ## Unknown-repo sentinel (C10) -/

/-- C10: normalizing a raw commit item that lacks a repository object, or
whose repository object lacks a human-facing URL (absent or empty), never
fails: it yields the commit with all its own fields intact and the literal
sentinel `Unknown Repo` as owning-repository URL.  That sentinel can never
prefix-match any real (`http`-prefixed) repository URL in the reconciler's
prefix test. -/
theorem C10_unknown_repo_sentinel :
    (∀ item : RawCommitItem,
        item.repository.bind (fun r => r.html_url) = none ∨
          item.repository.bind (fun r => r.html_url) = some "" →
        toCommit item =
          { sha := item.sha, message := item.commit_message,
            html_url := item.html_url, date := item.commit_author_date,
            repository_url := "Unknown Repo" }) ∧
    (∀ url : String, strStartsWith url "http" = true →
        strStartsWith "Unknown Repo" url = false) := by
  constructor
  · intro item h
    unfold toCommit jsOrString
    rcases h with h | h <;> rw [h] <;> simp
  · intro url hu
    cases h : strStartsWith "Unknown Repo" url with
    | false => rfl
    | true =>
      exfalso
      have h1 : url.data <+: "Unknown Repo".data := by
        rw [strStartsWith, List.isPrefixOf_iff_prefix] at h
        exact h
      have h2 : "http".data <+: url.data := by
        rw [strStartsWith, List.isPrefixOf_iff_prefix] at hu
        exact hu
      exact absurd (h2.trans h1) (by decide)

/-- C10 witness: a raw commit item with no repository object normalizes to
the sentinel, and a concrete real repository URL neither prefixes nor is
prefixed by it. -/
theorem C10_witness :
    toCommit { sha := "abc", commit_message := "m",
               commit_author_date := "2024-01-01T00:00:00Z",
               html_url := "https://host/org/repo/commit/abc", repository := none } =
      { sha := "abc", message := "m", html_url := "https://host/org/repo/commit/abc",
        date := "2024-01-01T00:00:00Z", repository_url := "Unknown Repo" } ∧
    strStartsWith "Unknown Repo" "https://host/org/repo" = false := by
  constructor
  · exact C10_unknown_repo_sentinel.1 _ (Or.inl rfl)
  · exact C10_unknown_repo_sentinel.2 "https://host/org/repo" (by decide)

/-! ## Pager (C2) -/

set_option maxRecDepth 40000 in
/-- C2 counterexample.  The claim asserts that, given three full pages of
100 items followed by a page of 40, the Pager "does not request a 4th
search page".  It does: the request log contains exactly the URLs of pages
1, 2, 3 and 4 (the 40-item fourth page must be requested to be returned),
while the result indeed concatenates all 340 items. -/
theorem C2_counterexample :
    (fetchSearchPages exPagerNet exUrl 10).2 =
      [pageUrl exUrl 1, pageUrl exUrl 2, pageUrl exUrl 3, pageUrl exUrl 4] ∧
    (fetchSearchPages exPagerNet exUrl 10).1 = Except.ok (List.range 340) :=
  ⟨rfl, rfl⟩

lemma handleErrors_ok {status : Nat} (statusText : String)
    (h1 : 200 ≤ status) (h2 : status < 300) :
    handleErrors status statusText = Except.ok () := by
  simp [handleErrors, h1, h2]

lemma firstShortStopAux_congr (pageLen : Nat → Nat) (maxPages : Nat) :
    ∀ f1 f2 n, maxPages - n ≤ f1 → maxPages - n ≤ f2 →
      firstShortStopAux pageLen maxPages f1 n = firstShortStopAux pageLen maxPages f2 n := by
  intro f1
  induction f1 with
  | zero =>
    intro f2 n h1 h2
    have hn : ¬ n < maxPages := by omega
    cases f2 with
    | zero => rfl
    | succ f2 => simp [firstShortStopAux, hn]
  | succ f1 ih =>
    intro f2 n h1 h2
    cases f2 with
    | zero =>
      have hn : ¬ n < maxPages := by omega
      simp [firstShortStopAux, hn]
    | succ f2 =>
      simp only [firstShortStopAux]
      by_cases hn : n < maxPages
      · simp only [hn, if_pos]
        by_cases hs : pageLen n < 100
        · simp [hs]
        · simp only [hs, if_neg, if_false]
          exact ih f2 (n + 1) (by omega) (by omega)
      · simp [hn]

lemma firstShortStopAux_of_ge (pageLen : Nat → Nat) (maxPages : Nat) :
    ∀ fuel n, maxPages ≤ n → firstShortStopAux pageLen maxPages fuel n = maxPages := by
  intro fuel n h
  cases fuel with
  | zero => rfl
  | succ fuel => simp [firstShortStopAux, Nat.not_lt.mpr h]

lemma firstShortStopAux_short (pageLen : Nat → Nat) (maxPages : Nat) {fuel n : Nat}
    (hn : n < maxPages) (hs : pageLen n < 100) (hf : 1 ≤ fuel) :
    firstShortStopAux pageLen maxPages fuel n = n := by
  cases fuel with
  | zero => omega
  | succ fuel => simp [firstShortStopAux, hn, hs]

lemma firstShortStopAux_step (pageLen : Nat → Nat) (maxPages : Nat) {n : Nat}
    (hn : n < maxPages) (hs : ¬ pageLen n < 100) :
    firstShortStopAux pageLen maxPages maxPages n =
      firstShortStopAux pageLen maxPages maxPages (n + 1) := by
  obtain ⟨m, rfl⟩ : ∃ m, maxPages = m + 1 := ⟨maxPages - 1, by omega⟩
  simp only [firstShortStopAux, hn, if_pos, hs, if_neg, if_false]
  exact firstShortStopAux_congr pageLen (m + 1) m (m + 1) (n + 1) (by omega) (by omega)

lemma firstShortStopAux_bounds (pageLen : Nat → Nat) (maxPages : Nat) :
    ∀ k n, maxPages - n ≤ k → 1 ≤ n → n ≤ maxPages →
      n ≤ firstShortStopAux pageLen maxPages maxPages n ∧
      firstShortStopAux pageLen maxPages maxPages n ≤ maxPages := by
  intro k
  induction k with
  | zero =>
    intro n h1 h2 h3
    have hn : n = maxPages := by omega
    rw [hn, firstShortStopAux_of_ge pageLen maxPages _ _ (le_refl _)]
    omega
  | succ k ih =>
    intro n h1 h2 h3
    by_cases hn : n < maxPages
    · by_cases hs : pageLen n < 100
      · rw [firstShortStopAux_short pageLen maxPages hn hs (by omega)]
        omega
      · rw [firstShortStopAux_step pageLen maxPages hn hs]
        have := ih (n + 1) (by omega) (by omega) (by omega)
        omega
    · have hn' : n = maxPages := by omega
      rw [hn', firstShortStopAux_of_ge pageLen maxPages _ _ (le_refl _)]
      omega

lemma firstShortStopAux_full_below (pageLen : Nat → Nat) (maxPages : Nat) :
    ∀ k n, maxPages - n ≤ k → 1 ≤ n → n ≤ maxPages →
      ∀ m, n ≤ m → m < firstShortStopAux pageLen maxPages maxPages n → 100 ≤ pageLen m := by
  intro k
  induction k with
  | zero =>
    intro n h1 h2 h3 m hm1 hm2
    have hn : n = maxPages := by omega
    rw [hn, firstShortStopAux_of_ge pageLen maxPages _ _ (le_refl _)] at hm2
    omega
  | succ k ih =>
    intro n h1 h2 h3 m hm1 hm2
    by_cases hn : n < maxPages
    · by_cases hs : pageLen n < 100
      · rw [firstShortStopAux_short pageLen maxPages hn hs (by omega)] at hm2
        omega
      · rw [firstShortStopAux_step pageLen maxPages hn hs] at hm2
        rcases Nat.eq_or_lt_of_le hm1 with rfl | hlt
        · omega
        · exact ih (n + 1) (by omega) (by omega) (by omega) m (by omega) hm2
    · have hn' : n = maxPages := by omega
      rw [hn', firstShortStopAux_of_ge pageLen maxPages _ _ (le_refl _)] at hm2
      omega

lemma firstShortStopAux_last (pageLen : Nat → Nat) (maxPages : Nat) :
    ∀ k n, maxPages - n ≤ k → 1 ≤ n → n ≤ maxPages →
      pageLen (firstShortStopAux pageLen maxPages maxPages n) < 100 ∨
      firstShortStopAux pageLen maxPages maxPages n = maxPages := by
  intro k
  induction k with
  | zero =>
    intro n h1 h2 h3
    have hn : n = maxPages := by omega
    rw [hn, firstShortStopAux_of_ge pageLen maxPages _ _ (le_refl _)]
    right
    rfl
  | succ k ih =>
    intro n h1 h2 h3
    by_cases hn : n < maxPages
    · by_cases hs : pageLen n < 100
      · rw [firstShortStopAux_short pageLen maxPages hn hs (by omega)]
        left
        exact hs
      · rw [firstShortStopAux_step pageLen maxPages hn hs]
        exact ih (n + 1) (by omega) (by omega) (by omega)
    · have hn' : n = maxPages := by omega
      rw [hn', firstShortStopAux_of_ge pageLen maxPages _ _ (le_refl _)]
      right
      rfl

lemma fetchSearchPagesAux_spec {α : Type} (net : String → PageResp α) (url : String)
    (maxPages : Nat)
    (hOk : ∀ n, 1 ≤ n → n ≤ maxPages →
      200 ≤ (net (pageUrl url n)).status ∧ (net (pageUrl url n)).status < 300) :
    ∀ fuel n acc log, 1 ≤ n → n ≤ maxPages → maxPages + 1 - n < fuel →
      fetchSearchPagesAux net url maxPages fuel n acc log =
        (Except.ok (acc ++
          ((List.range' n
            (firstShortStopAux (fun k => (pageItems net url k).length) maxPages maxPages n + 1 - n)).map
              (pageItems net url)).flatten),
         log ++
          (List.range' n
            (firstShortStopAux (fun k => (pageItems net url k).length) maxPages maxPages n + 1 - n)).map
              (pageUrl url)) := by
  intro fuel
  induction fuel with
  | zero =>
    intro n acc log h1 h2 h3
    omega
  | succ fuel ih =>
    intro n acc log h1 h2 h3
    have hok := hOk n h1 h2
    have herr := handleErrors_ok (net (pageUrl url n)).statusText hok.1 hok.2
    simp only [fetchSearchPagesAux, if_pos h2, herr]
    by_cases hz : (net (pageUrl url n)).items.length = 0
    · simp only [hz, if_pos]
      have hstop : firstShortStopAux (fun k => (pageItems net url k).length) maxPages maxPages n = n := by
        rcases Nat.lt_or_ge n maxPages with hn | hn
        · exact firstShortStopAux_short _ _ hn (by simp [pageItems, hz]) (by omega)
        · have : n = maxPages := by omega
          rw [this]
          exact firstShortStopAux_of_ge _ _ _ _ (le_refl _)
      have hitems : pageItems net url n = [] := by
        simpa [pageItems, List.length_eq_zero] using hz
      rw [hstop]
      simp [hitems, Nat.add_sub_cancel_left]
    · simp only [hz, if_neg, if_false]
      by_cases hshort : (net (pageUrl url n)).items.length < 100
      · simp only [hshort, if_pos]
        have hstop : firstShortStopAux (fun k => (pageItems net url k).length) maxPages maxPages n = n := by
          rcases Nat.lt_or_ge n maxPages with hn | hn
          · exact firstShortStopAux_short _ _ hn (by simpa [pageItems] using hshort) (by omega)
          · have : n = maxPages := by omega
            rw [this]
            exact firstShortStopAux_of_ge _ _ _ _ (le_refl _)
        rw [hstop]
        simp [pageItems, Nat.add_sub_cancel_left]
      · simp only [hshort, if_neg, if_false]
        rcases Nat.lt_or_ge n maxPages with hn | hn
        · have hstep := firstShortStopAux_step
            (fun k => (pageItems net url k).length) maxPages hn (by simpa [pageItems] using hshort)
          have hbounds := firstShortStopAux_bounds
            (fun k => (pageItems net url k).length) maxPages (maxPages - (n + 1)) (n + 1)
            (le_refl _) (by omega) (by omega)
          rw [ih (n + 1) (acc ++ (net (pageUrl url n)).items) (log ++ [pageUrl url n])
            (by omega) (by omega) (by omega)]
          rw [hstep]
          have hrange :
              List.range' n
                (firstShortStopAux (fun k => (pageItems net url k).length) maxPages maxPages (n + 1) + 1 - n) =
              n :: List.range' (n + 1)
                (firstShortStopAux (fun k => (pageItems net url k).length) maxPages maxPages (n + 1) + 1 - (n + 1)) := by
            have hS := hbounds.1
            have : firstShortStopAux (fun k => (pageItems net url k).length) maxPages maxPages (n + 1) + 1 - n =
                (firstShortStopAux (fun k => (pageItems net url k).length) maxPages maxPages (n + 1) + 1 - (n + 1)) + 1 := by
              omega
            rw [this, List.range'_succ]
          rw [hrange]
          simp [pageItems, List.append_assoc]
        · have hn' : n = maxPages := by omega
          have hstop : firstShortStopAux (fun k => (pageItems net url k).length) maxPages maxPages n = maxPages := by
            rw [hn']
            exact firstShortStopAux_of_ge _ _ _ _ (le_refl _)
          obtain ⟨f, rfl⟩ : ∃ f, fuel = f + 1 := ⟨fuel - 1, by omega⟩
          have hcond : ¬ n + 1 ≤ maxPages := by omega
          simp only [fetchSearchPagesAux, hcond, if_neg, if_false]
          rw [hstop, hn']
          simp [pageItems, Nat.add_sub_cancel_left]

/-- C2 (amended): for every sequence of pages served by the provider (all
statuses ok) and every positive ceiling, the Pager returns the
concatenation, in request order, of all pages up to and including the first
empty or short page (fewer than the page size of 100), or up to the
page-count ceiling, whichever comes first — and its request log is exactly
pages 1 through that stop index.  In the 3-full-pages-then-40 scenario the
result has 340 items, the short 4th page is requested, and no 5th request
is issued. -/
theorem C2_pager_concatenation {α : Type} (net : String → PageResp α) (url : String)
    (maxPages : Nat) (hM : 1 ≤ maxPages)
    (hOk : ∀ n, 1 ≤ n → n ≤ maxPages →
      200 ≤ (net (pageUrl url n)).status ∧ (net (pageUrl url n)).status < 300) :
    fetchSearchPages net url maxPages =
      (Except.ok (((List.range' 1 (pagerStop net url maxPages)).map (pageItems net url)).flatten),
       (List.range' 1 (pagerStop net url maxPages)).map (pageUrl url)) ∧
    (∀ m, 1 ≤ m → m < pagerStop net url maxPages → 100 ≤ (pageItems net url m).length) ∧
    ((pageItems net url (pagerStop net url maxPages)).length < 100 ∨
      pagerStop net url maxPages = maxPages) ∧
    1 ≤ pagerStop net url maxPages ∧ pagerStop net url maxPages ≤ maxPages := by
  have hstop : pagerStop net url maxPages =
      firstShortStopAux (fun k => (pageItems net url k).length) maxPages maxPages 1 := by
    rw [pagerStop, firstShortStop, if_neg (by omega : ¬ maxPages = 0)]
  have hmain := fetchSearchPagesAux_spec net url maxPages hOk (maxPages + 1) 1 [] []
    (le_refl _) hM (by omega)
  have hbounds := firstShortStopAux_bounds (fun k => (pageItems net url k).length)
    maxPages (maxPages - 1) 1 (le_refl _) (le_refl _) hM
  refine ⟨?_, ?_, ?_, ?_, ?_⟩
  · rw [fetchSearchPages, hmain, hstop]
    simp
  · intro m hm1 hm2
    rw [hstop] at hm2
    exact firstShortStopAux_full_below (fun k => (pageItems net url k).length)
      maxPages (maxPages - 1) 1 (le_refl _) (le_refl _) hM m hm1 hm2
  · rw [hstop]
    exact firstShortStopAux_last (fun k => (pageItems net url k).length)
      maxPages (maxPages - 1) 1 (le_refl _) (le_refl _) hM
  · rw [hstop]
    exact hbounds.1
  · rw [hstop]
    exact hbounds.2

set_option maxRecDepth 40000 in
/-- C2 witness: the amended Pager theorem applied to the concrete
3-full-pages-then-40 provider with ceiling 10; the stop index evaluates to
4, so exactly four pages are requested. -/
theorem C2_witness :
    (1 ≤ 10) ∧
    pagerStop exPagerNet exUrl 10 = 4 ∧
    fetchSearchPages exPagerNet exUrl 10 =
      (Except.ok (((List.range' 1 (pagerStop exPagerNet exUrl 10)).map (pageItems exPagerNet exUrl)).flatten),
       (List.range' 1 (pagerStop exPagerNet exUrl 10)).map (pageUrl exUrl)) := by
  have h200 : (200 : Nat) ≤ 200 := by decide
  have h300 : (200 : Nat) < 300 := by decide
  refine ⟨by decide, by decide, ?_⟩
  exact (C2_pager_concatenation exPagerNet exUrl 10 (by decide)
    (fun n h1 h2 => ⟨h200, h300⟩)).1

/-! ## Decimal-digit lemmas -/

lemma natDigitsAux_congr :
    ∀ (n f1 f2 : Nat), n < f1 → n < f2 → natDigitsAux f1 n = natDigitsAux f2 n := by
  intro n
  induction n using Nat.strong_induction_on with
  | _ n ih =>
    intro f1 f2 h1 h2
    obtain ⟨a, rfl⟩ : ∃ a, f1 = a + 1 := ⟨f1 - 1, by omega⟩
    obtain ⟨b, rfl⟩ : ∃ b, f2 = b + 1 := ⟨f2 - 1, by omega⟩
    simp only [natDigitsAux]
    by_cases h : n < 10
    · simp [h]
    · simp only [h, if_neg, if_false]
      rw [ih (n / 10) (by omega) a b (by omega) (by omega)]

lemma natDigits_of_lt {n : Nat} (h : n < 10) : natDigits n = [Nat.digitChar n] := by
  simp [natDigits, natDigitsAux, h]

lemma natDigits_of_ge {n : Nat} (h : 10 ≤ n) :
    natDigits n = natDigits (n / 10) ++ [Nat.digitChar (n % 10)] := by
  unfold natDigits
  conv_lhs => rw [natDigitsAux]
  rw [if_neg (by omega)]
  rw [natDigitsAux_congr (n / 10) n (n / 10 + 1) (by omega) (by omega)]

lemma digitChar_toNat : ∀ d : Nat, d < 10 → (Nat.digitChar d).toNat = 48 + d := by
  decide

lemma unpadDigits_from (l : List Char) :
    ∀ a : Nat, l.foldl (fun a c => a * 10 + (c.toNat - 48)) a =
      a * 10 ^ l.length + unpadDigits l := by
  induction l with
  | nil => intro a; simp [unpadDigits]
  | cons c t ih =>
    intro a
    simp only [List.foldl_cons, unpadDigits, List.length_cons]
    rw [ih, ih (0 * 10 + (c.toNat - 48))]
    ring

lemma unpadDigits_append (l1 l2 : List Char) :
    unpadDigits (l1 ++ l2) = unpadDigits l1 * 10 ^ l2.length + unpadDigits l2 := by
  unfold unpadDigits
  rw [List.foldl_append, unpadDigits_from]
  rfl

lemma unpadDigits_replicate_zero (k : Nat) :
    unpadDigits (List.replicate k '0') = 0 := by
  induction k with
  | zero => rfl
  | succ k ih =>
    rw [List.replicate_succ]
    unfold unpadDigits at ih ⊢
    simpa using ih

lemma unpadDigits_natDigits : ∀ n : Nat, unpadDigits (natDigits n) = n := by
  intro n
  induction n using Nat.strong_induction_on with
  | _ n ih =>
    by_cases h : n < 10
    · rw [natDigits_of_lt h]
      unfold unpadDigits
      simp [digitChar_toNat n h]
    · rw [natDigits_of_ge (by omega), unpadDigits_append, ih (n / 10) (by omega)]
      unfold unpadDigits
      simp [digitChar_toNat (n % 10) (by omega)]
      omega

lemma unpadDigits_padStartZeros (k n : Nat) :
    unpadDigits (padStartZeros k (natDigits n)) = n := by
  unfold padStartZeros
  rw [unpadDigits_append, unpadDigits_replicate_zero, unpadDigits_natDigits]
  ring

lemma unpadDigits_pad2 (n : Nat) : unpadDigits (pad2 n) = n :=
  unpadDigits_padStartZeros 2 n

lemma unpadDigits_pad4 (n : Nat) : unpadDigits (pad4 n) = n :=
  unpadDigits_padStartZeros 4 n

lemma natDigits_length_le : ∀ (k n : Nat), 1 ≤ k → n < 10 ^ k → (natDigits n).length ≤ k := by
  intro k
  induction k with
  | zero => omega
  | succ k ih =>
    intro n _ hn
    by_cases h : n < 10
    · rw [natDigits_of_lt h]
      simp
    · have hk : 1 ≤ k := by
        by_contra hk0
        have : k = 0 := by omega
        subst this
        simp at hn
        omega
      rw [natDigits_of_ge (by omega)]
      have := ih (n / 10) hk (by
        have h10 : (10:Nat) ^ (k + 1) = 10 ^ k * 10 := by ring
        rw [h10] at hn
        omega)
      simp
      omega

lemma pad2_length {n : Nat} (h : n < 100) : (pad2 n).length = 2 := by
  have := natDigits_length_le 2 n (by omega) (by norm_num; omega)
  unfold pad2 padStartZeros
  simp
  omega

lemma pad4_length {n : Nat} (h : n < 10000) : (pad4 n).length = 4 := by
  have := natDigits_length_le 4 n (by omega) (by norm_num; omega)
  unfold pad4 padStartZeros
  simp
  omega

/-! ## Calendar lemmas -/

lemma daysInMonth_bounds (y m : Nat) : 28 ≤ daysInMonth y m ∧ daysInMonth y m ≤ 31 := by
  rw [daysInMonth.eq_def]
  split
  · split <;> omega
  all_goals omega

lemma daysBeforeMonth_succ (y m : Nat) (h : 1 ≤ m) :
    daysBeforeMonth y (m + 1) = daysBeforeMonth y m + daysInMonth y m := by
  obtain ⟨k, rfl⟩ : ∃ k, m = k + 1 := ⟨m - 1, by omega⟩
  rfl

lemma daysBeforeMonth_13 (y : Nat) : daysBeforeMonth y 13 = yearDays y := by
  have h : ∀ k, 1 ≤ k →
      daysBeforeMonth y (k + 1) = daysBeforeMonth y k + daysInMonth y k :=
    fun k hk => daysBeforeMonth_succ y k hk
  unfold yearDays
  rw [show (13:Nat) = 12 + 1 from rfl, h 12 (by omega)]
  rw [show (12:Nat) = 11 + 1 from rfl, h 11 (by omega)]
  rw [show (11:Nat) = 10 + 1 from rfl, h 10 (by omega)]
  rw [show (10:Nat) = 9 + 1 from rfl, h 9 (by omega)]
  rw [show (9:Nat) = 8 + 1 from rfl, h 8 (by omega)]
  rw [show (8:Nat) = 7 + 1 from rfl, h 7 (by omega)]
  rw [show (7:Nat) = 6 + 1 from rfl, h 6 (by omega)]
  rw [show (6:Nat) = 5 + 1 from rfl, h 5 (by omega)]
  rw [show (5:Nat) = 4 + 1 from rfl, h 4 (by omega)]
  rw [show (4:Nat) = 3 + 1 from rfl, h 3 (by omega)]
  rw [show (3:Nat) = 2 + 1 from rfl, h 2 (by omega)]
  rw [show (2:Nat) = 1 + 1 from rfl, h 1 (by omega)]
  show 0 + 31 + _ + 31 + 30 + 31 + 30 + 31 + 31 + 30 + 31 + 30 + 31 = _
  rw [show daysInMonth y 2 = if isLeap y then 29 else 28 from rfl]
  cases isLeap y <;> simp

lemma daysBeforeMonth_mono (y : Nat) : ∀ a b : Nat, 1 ≤ a → a ≤ b →
    daysBeforeMonth y a ≤ daysBeforeMonth y b := by
  intro a b h1 h
  induction b with
  | zero => omega
  | succ b ih =>
    rcases Nat.eq_or_lt_of_le h with rfl | h'
    · exact le_refl _
    · have hb : 1 ≤ b := by omega
      rw [daysBeforeMonth_succ y b hb]
      have := ih (by omega)
      omega

lemma daysBeforeYear_succ (y : Nat) (h : 1 ≤ y) :
    daysBeforeYear (y + 1) = daysBeforeYear y + yearDays y := by
  obtain ⟨k, rfl⟩ : ∃ k, y = k + 1 := ⟨y - 1, by omega⟩
  rfl

lemma daysBeforeYear_mono : ∀ a b : Nat, a ≤ b →
    daysBeforeYear a ≤ daysBeforeYear b := by
  intro a b h
  induction b with
  | zero =>
    have : a = 0 := by omega
    rw [this]
  | succ b ih =>
    rcases Nat.eq_or_lt_of_le h with rfl | h'
    · exact le_refl _
    · have hab := ih (by omega)
      by_cases hb : 1 ≤ b
      · rw [daysBeforeYear_succ b hb]
        omega
      · have hb0 : b = 0 := by omega
        subst hb0
        have ha : a = 0 := by omega
        subst ha
        show daysBeforeYear 0 ≤ daysBeforeYear 1
        rfl

lemma rataDie_le_daysBeforeYear_succ {d : CivilDate} (h : ValidDate d) :
    rataDie d ≤ daysBeforeYear (d.year + 1) := by
  obtain ⟨h1, h2, h3, h4, h5⟩ := h
  rw [daysBeforeYear_succ d.year h1]
  unfold rataDie
  have hs := daysBeforeMonth_succ d.year d.month h2
  have h13 := daysBeforeMonth_13 d.year
  have hmono := daysBeforeMonth_mono d.year (d.month + 1) 13 (by omega) (by omega)
  omega

lemma daysBeforeYear_lt_rataDie {d : CivilDate} (h : ValidDate d) :
    daysBeforeYear d.year < rataDie d := by
  obtain ⟨h1, h2, h3, h4, h5⟩ := h
  unfold rataDie
  omega

lemma year_le_of_rataDie_le {d e : CivilDate} (hd : ValidDate d) (he : ValidDate e)
    (h : rataDie d ≤ rataDie e) : d.year ≤ e.year := by
  by_contra hc
  push_neg at hc
  have h1 := rataDie_le_daysBeforeYear_succ he
  have h2 := daysBeforeYear_lt_rataDie hd
  have h3 := daysBeforeYear_mono (e.year + 1) d.year (by omega)
  omega

lemma rataDie_nextDay {d : CivilDate} (h : ValidDate d) :
    rataDie (nextDay d) = rataDie d + 1 := by
  obtain ⟨y, m, dd⟩ := d
  obtain ⟨h1, h2, h3, h4, h5⟩ := h
  simp only at h1 h2 h3 h4 h5
  unfold nextDay
  dsimp only
  by_cases hd : dd < daysInMonth y m
  · rw [if_pos hd]
    unfold rataDie
    dsimp only
    omega
  · rw [if_neg hd]
    by_cases hm : m < 12
    · rw [if_pos hm]
      unfold rataDie
      simp only
      rw [daysBeforeMonth_succ y m h2]
      omega
    · rw [if_neg hm]
      have hm12 : m = 12 := by omega
      subst hm12
      unfold rataDie
      simp only
      rw [daysBeforeYear_succ y h1]
      have h13 := daysBeforeMonth_13 y
      have hsucc : daysBeforeMonth y 13 = daysBeforeMonth y 12 + daysInMonth y 12 :=
        daysBeforeMonth_succ y 12 (by omega)
      have hdim12 : daysInMonth y 12 = 31 := rfl
      have hdbm1 : daysBeforeMonth (y + 1) 1 = 0 := rfl
      omega

lemma validDate_nextDay {d : CivilDate} (h : ValidDate d) : ValidDate (nextDay d) := by
  obtain ⟨y, m, dd⟩ := d
  obtain ⟨h1, h2, h3, h4, h5⟩ := h
  simp only at h1 h2 h3 h4 h5
  unfold nextDay
  dsimp only
  by_cases hd : dd < daysInMonth y m
  · rw [if_pos hd]
    refine ⟨?_, ?_, ?_, ?_, ?_⟩ <;> dsimp only <;> omega
  · rw [if_neg hd]
    by_cases hm : m < 12
    · rw [if_pos hm]
      have := daysInMonth_bounds y (m + 1)
      refine ⟨?_, ?_, ?_, ?_, ?_⟩ <;> dsimp only <;> omega
    · rw [if_neg hm]
      have := daysInMonth_bounds (y + 1) 1
      refine ⟨?_, ?_, ?_, ?_, ?_⟩ <;> dsimp only <;> omega

lemma nextMonth_day (d : CivilDate) : (nextMonth d).day = d.day := by
  unfold nextMonth
  split <;> rfl

lemma monthIdx_nextMonth {d : CivilDate} (h2 : 1 ≤ d.month) (h3 : d.month ≤ 12) :
    monthIdx (nextMonth d) = monthIdx d + 1 := by
  obtain ⟨y, m, dd⟩ := d
  simp only at h2 h3
  unfold nextMonth monthIdx
  dsimp only
  by_cases hm : m < 12
  · rw [if_pos hm]
    dsimp only
    omega
  · rw [if_neg hm]
    have : m = 12 := by omega
    subst this
    dsimp only
    omega

lemma nextMonth_ranges {d : CivilDate} (h1 : 1 ≤ d.year) (h2 : 1 ≤ d.month)
    (h3 : d.month ≤ 12) :
    1 ≤ (nextMonth d).year ∧ 1 ≤ (nextMonth d).month ∧ (nextMonth d).month ≤ 12 := by
  obtain ⟨y, m, dd⟩ := d
  simp only at h1 h2 h3
  unfold nextMonth
  by_cases hm : m < 12
  · rw [if_pos hm]
    refine ⟨?_, ?_, ?_⟩ <;> dsimp only <;> omega
  · rw [if_neg hm]
    refine ⟨?_, ?_, ?_⟩ <;> dsimp only <;> omega

lemma rataDie_lt_nextMonth {d : CivilDate} (h1 : 1 ≤ d.year) (h2 : 1 ≤ d.month)
    (h3 : d.month ≤ 12) : rataDie d < rataDie (nextMonth d) := by
  obtain ⟨y, m, dd⟩ := d
  simp only at h1 h2 h3
  unfold nextMonth
  dsimp only
  by_cases hm : m < 12
  · rw [if_pos hm]
    unfold rataDie
    dsimp only
    rw [daysBeforeMonth_succ y m h2]
    have := daysInMonth_bounds y m
    omega
  · rw [if_neg hm]
    have hm12 : m = 12 := by omega
    subst hm12
    unfold rataDie
    dsimp only
    rw [daysBeforeYear_succ y h1]
    have h13 := daysBeforeMonth_13 y
    have hsucc : daysBeforeMonth y 13 = daysBeforeMonth y 12 + daysInMonth y 12 :=
      daysBeforeMonth_succ y 12 (by omega)
    have hdim12 : daysInMonth y 12 = 31 := rfl
    have hdbm1 : daysBeforeMonth (y + 1) 1 = 0 := rfl
    omega

lemma rataDie_monthFirst_lt :
    ∀ (k y m y' m' : Nat), 12 * y' + m' - (12 * y + m) ≤ k →
      1 ≤ y → 1 ≤ m → m ≤ 12 → 1 ≤ m' → m' ≤ 12 →
      12 * y + m < 12 * y' + m' →
      rataDie ⟨y, m, 1⟩ < rataDie ⟨y', m', 1⟩ := by
  intro k
  induction k with
  | zero =>
    intro y m y' m' hk _ _ _ _ _ hlt
    omega
  | succ k ih =>
    intro y m y' m' hk h1 h2 h3 h4 h5 hlt
    have hnext : rataDie ⟨y, m, 1⟩ < rataDie (nextMonth ⟨y, m, 1⟩) :=
      rataDie_lt_nextMonth h1 h2 h3
    by_cases hm : m < 12
    · have hnm : nextMonth ⟨y, m, 1⟩ = ⟨y, m + 1, 1⟩ := by
        unfold nextMonth
        rw [if_pos hm]
      rw [hnm] at hnext
      rcases Nat.eq_or_lt_of_le (by omega : 12 * y + m + 1 ≤ 12 * y' + m') with heq | hlt2
      · have hy : y' = y ∧ m' = m + 1 := by omega
        rw [hy.1, hy.2]
        exact hnext
      · exact lt_trans hnext
          (ih y (m + 1) y' m' (by omega) h1 (by omega) (by omega) h4 h5 (by omega))
    · have hm12 : m = 12 := by omega
      have hnm : nextMonth ⟨y, m, 1⟩ = ⟨y + 1, 1, 1⟩ := by
        unfold nextMonth
        rw [if_neg hm]
      rw [hnm] at hnext
      rcases Nat.eq_or_lt_of_le (by omega : 12 * y + m + 1 ≤ 12 * y' + m') with heq | hlt2
      · have hy : y' = y + 1 ∧ m' = 1 := by omega
        rw [hy.1, hy.2]
        exact hnext
      · exact lt_trans hnext
          (ih (y + 1) 1 y' m' (by omega) (by omega) (by omega) (by omega) h4 h5 (by omega))

lemma rataDie_monthFirst_le {y m y' m' : Nat} (h1 : 1 ≤ y) (h2 : 1 ≤ m) (h3 : m ≤ 12)
    (h1' : 1 ≤ y') (h4 : 1 ≤ m') (h5 : m' ≤ 12) (h : 12 * y + m ≤ 12 * y' + m') :
    rataDie ⟨y, m, 1⟩ ≤ rataDie ⟨y', m', 1⟩ := by
  rcases Nat.eq_or_lt_of_le h with heq | hlt
  · have hy : y = y' ∧ m = m' := by omega
    rw [hy.1, hy.2]
  · exact le_of_lt (rataDie_monthFirst_lt (12 * y' + m' - (12 * y + m)) y m y' m'
      (le_refl _) h1 h2 h3 h4 h5 hlt)

lemma rataDie_lt_nextMonthFirst {e : CivilDate} (h : ValidDate e) :
    rataDie e < rataDie (nextMonth ⟨e.year, e.month, 1⟩) := by
  obtain ⟨y, m, dd⟩ := e
  obtain ⟨h1, h2, h3, h4, h5⟩ := h
  simp only at h1 h2 h3 h4 h5
  dsimp only
  unfold nextMonth
  dsimp only
  by_cases hm : m < 12
  · rw [if_pos hm]
    unfold rataDie
    dsimp only
    rw [daysBeforeMonth_succ y m h2]
    omega
  · rw [if_neg hm]
    have hm12 : m = 12 := by omega
    subst hm12
    unfold rataDie
    dsimp only
    rw [daysBeforeYear_succ y h1]
    have h13 := daysBeforeMonth_13 y
    have hsucc : daysBeforeMonth y 13 = daysBeforeMonth y 12 + daysInMonth y 12 :=
      daysBeforeMonth_succ y 12 (by omega)
    have hdim12 : daysInMonth y 12 = 31 := rfl
    have hdbm1 : daysBeforeMonth (y + 1) 1 = 0 := rfl
    omega

lemma monthIdx_le_of_rataDie_le {d e : CivilDate} (hd : ValidDate d) (he : ValidDate e)
    (h : rataDie d ≤ rataDie e) : monthIdx d ≤ monthIdx e := by
  by_contra hc
  push_neg at hc
  have h1 := rataDie_lt_nextMonthFirst he
  have hranges := nextMonth_ranges (d := ⟨e.year, e.month, 1⟩) he.1 he.2.1 he.2.2.1
  have hidx := monthIdx_nextMonth (d := ⟨e.year, e.month, 1⟩) he.2.1 he.2.2.1
  have hday := nextMonth_day (⟨e.year, e.month, 1⟩ : CivilDate)
  have hnm1 : nextMonth ⟨e.year, e.month, 1⟩ =
      ⟨(nextMonth ⟨e.year, e.month, 1⟩).year, (nextMonth ⟨e.year, e.month, 1⟩).month, 1⟩ := by
    dsimp only at hday
    rcases hx : nextMonth ⟨e.year, e.month, 1⟩ with ⟨a, b, c⟩
    rw [hx] at hday
    dsimp only at hday ⊢
    rw [hday]
  have h2 : rataDie (nextMonth ⟨e.year, e.month, 1⟩) ≤ rataDie ⟨d.year, d.month, 1⟩ := by
    rw [hnm1]
    apply rataDie_monthFirst_le hranges.1 hranges.2.1 hranges.2.2 hd.1 hd.2.1 hd.2.2.1
    unfold monthIdx at hidx hc
    simp only at hidx hc
    omega
  have h3 : rataDie ⟨d.year, d.month, 1⟩ ≤ rataDie d := by
    have hd4 := hd.2.2.2.1
    unfold rataDie
    dsimp only
    omega
  omega

/-! ## Bucket-key injectivity -/

lemma natDigits_inj {a b : Nat} (h : natDigits a = natDigits b) : a = b := by
  rw [← unpadDigits_natDigits a, h, unpadDigits_natDigits]

lemma pad2_inj {a b : Nat} (h : pad2 a = pad2 b) : a = b := by
  rw [← unpadDigits_pad2 a, h, unpadDigits_pad2]

lemma pad4_inj {a b : Nat} (h : pad4 a = pad4 b) : a = b := by
  rw [← unpadDigits_pad4 a, h, unpadDigits_pad4]

lemma dayKeyChars_inj {y m dd y' m' dd' : Nat}
    (hm : m < 100) (hm' : m' < 100) (hd : dd < 100) (hd' : dd' < 100)
    (h : dayKeyChars y m dd = dayKeyChars y' m' dd') : y = y' ∧ m = m' ∧ dd = dd' := by
  unfold dayKeyChars at h
  obtain ⟨h4, hB⟩ := List.append_inj' h (by simp [pad2_length hd, pad2_length hd'])
  injection hB with _ h3
  obtain ⟨h1, hC⟩ := List.append_inj' h4 (by simp [pad2_length hm, pad2_length hm'])
  injection hC with _ h2
  exact ⟨pad4_inj h1, pad2_inj h2, pad2_inj h3⟩

lemma monthKeyChars_inj {y m y' m' : Nat} (hm : m < 100) (hm' : m' < 100)
    (h : monthKeyChars y m = monthKeyChars y' m') : y = y' ∧ m = m' := by
  unfold monthKeyChars at h
  obtain ⟨h1, hrest⟩ := List.append_inj' h (by simp [pad2_length hm, pad2_length hm'])
  injection hrest with _ h2
  exact ⟨natDigits_inj h1, pad2_inj h2⟩

lemma bucketKey_false_inj {d d' : CivilDate}
    (hm : d.month < 100) (hm' : d'.month < 100) (hd : d.day < 100) (hd' : d'.day < 100)
    (h : bucketKey false d = bucketKey false d') : d = d' := by
  unfold bucketKey at h
  have hdata := congrArg String.data h
  obtain ⟨h1, h2, h3⟩ := dayKeyChars_inj hm hm' hd hd' hdata
  obtain ⟨y, m, dd⟩ := d
  obtain ⟨y', m', dd'⟩ := d'
  simp only at h1 h2 h3
  rw [h1, h2, h3]

lemma bucketKey_true_inj {d d' : CivilDate}
    (hm : d.month < 100) (hm' : d'.month < 100)
    (h : bucketKey true d = bucketKey true d') :
    d.year = d'.year ∧ d.month = d'.month := by
  unfold bucketKey at h
  have hdata := congrArg String.data h
  exact monthKeyChars_inj hm hm' hdata

/-! ## The bucket-generation loop -/

lemma mapSet_of_fresh {m : List (String × ChartData)} {k : String} {v : ChartData}
    (h : ∀ p ∈ m, p.1 ≠ k) : mapSet m k v = m ++ [(k, v)] := by
  unfold mapSet
  rw [if_neg]
  simp only [List.any_eq_true, beq_iff_eq, not_exists, not_and]
  exact fun p hp => h p hp

lemma walk_length (isM : Bool) : ∀ (k : Nat) (d : CivilDate), (walk isM k d).length = k := by
  intro k
  induction k with
  | zero => intro d; rfl
  | succ k ih =>
    intro d
    simp [walk, ih]

/-- The generic specification of `bucketLoop`: under a step measure `μ`
that the walk increments by exactly 1, a loop condition equivalent to
`μ current ≤ μ endTarget`, and bucket keys injective in `μ` on the range,
the loop appends one fresh bucket per visited grid date, visiting
`min (span) (1001 - loops)` dates — the `loops++ > 1000` guard admits 1001
iterations in total. -/
lemma bucketLoop_spec (isM : Bool) (endT : CivilDate) (μ : CivilDate → Nat)
    (Inv : CivilDate → Prop)
    (hstep : ∀ d, Inv d → Inv (bucketStep isM d) ∧ μ (bucketStep isM d) = μ d + 1)
    (hcond : ∀ d, Inv d → (loopCond isM d endT = true ↔ μ d ≤ μ endT))
    (hkey : ∀ d d', Inv d → Inv d' → μ d ≤ μ endT → μ d' ≤ μ endT → μ d ≠ μ d' →
      bucketKey isM d ≠ bucketKey isM d') :
    ∀ (fuel loops : Nat) (current : CivilDate) (dataMap : List (String × ChartData)),
      Inv current → fuel + loops = 1002 →
      (∀ p ∈ dataMap, ∃ d, Inv d ∧ μ d < μ current ∧ μ d ≤ μ endT ∧ p.1 = bucketKey isM d) →
      bucketLoop isM endT fuel current loops dataMap =
        dataMap ++
          (walk isM (min (if μ current ≤ μ endT then μ endT + 1 - μ current else 0)
              (1001 - loops)) current).map
            (fun d => (bucketKey isM d, mkBucket isM d)) := by
  intro fuel
  induction fuel with
  | zero =>
    intro loops current dataMap hInv hfl hdm
    have : loops = 1002 := by omega
    subst this
    simp [bucketLoop, walk]
  | succ fuel ih =>
    intro loops current dataMap hInv hfl hdm
    simp only [bucketLoop]
    by_cases hc : loopCond isM current endT = true
    · rw [if_pos hc]
      have hμ : μ current ≤ μ endT := (hcond current hInv).mp hc
      by_cases hl : loops > 1000
      · rw [if_pos hl]
        have : loops = 1001 := by omega
        subst this
        simp [walk]
      · rw [if_neg hl]
        have hfresh : ∀ p ∈ dataMap, p.1 ≠ bucketKey isM current := by
          intro p hp
          obtain ⟨d, hdInv, hdlt, hdle, hdk⟩ := hdm p hp
          rw [hdk]
          exact hkey d current hdInv hInv hdle hμ (by omega)
        rw [mapSet_of_fresh hfresh]
        have hstepc := hstep current hInv
        rw [ih (loops + 1) (bucketStep isM current)
          (dataMap ++ [(bucketKey isM current, mkBucket isM current)])
          hstepc.1 (by omega) ?_]
        · have harith :
              min (if μ current ≤ μ endT then μ endT + 1 - μ current else 0) (1001 - loops) =
              (min (if μ (bucketStep isM current) ≤ μ endT then
                μ endT + 1 - μ (bucketStep isM current) else 0) (1001 - (loops + 1))) + 1 := by
            rw [hstepc.2]
            by_cases hle : μ current + 1 ≤ μ endT
            · rw [if_pos hμ, if_pos hle]
              omega
            · rw [if_pos hμ, if_neg hle]
              omega
          rw [harith]
          simp only [walk, List.map_cons]
          rw [List.append_assoc]
          rfl
        · intro p hp
          rcases List.mem_append.mp hp with hp1 | hp2
          · obtain ⟨d, hdInv, hdlt, hdle, hdk⟩ := hdm p hp1
            exact ⟨d, hdInv, by omega, hdle, hdk⟩
          · simp only [List.mem_singleton] at hp2
            subst hp2
            exact ⟨current, hInv, by omega, hμ, rfl⟩
    · rw [if_neg hc]
      have hμ : ¬ μ current ≤ μ endT := fun hle => hc ((hcond current hInv).mpr hle)
      rw [if_neg hμ]
      simp [walk]

/-! ## Date parsing and the granularity measure -/

lemma digitVal_le {c : Char} {a : Nat} (h : digitVal c = some a) : a ≤ 9 := by
  unfold digitVal at h
  split at h
  · injection h with h
    omega
  · exact absurd h (by simp)

lemma parseDate_props {str : String} {d : CivilDate} (h : parseDate str = some d) :
    1 ≤ d.month ∧ d.month ≤ 12 ∧ 1 ≤ d.day ∧ d.day ≤ daysInMonth d.year d.month ∧
    d.year ≤ 9999 := by
  unfold parseDate at h
  split at h
  · split at h
    · split at h
      · rename_i a b c dg e f g hh heqa heqb heqc heqd heqe heqf heqg heqh hcond
        injection h with h
        subst h
        have ha := digitVal_le heqa
        have hb := digitVal_le heqb
        have hc := digitVal_le heqc
        have hd := digitVal_le heqd
        obtain ⟨_, h1, h2, h3, h4⟩ := hcond
        refine ⟨h1, h2, h3, h4, ?_⟩
        show ((a * 10 + b) * 10 + c) * 10 + dg ≤ 9999
        omega
      · exact absurd h (by simp)
    · exact absurd h (by simp)
  · exact absurd h (by simp)

lemma getTime_le_iff (d e : CivilDate) : getTime d ≤ getTime e ↔ rataDie d ≤ rataDie e := by
  unfold getTime
  rw [mul_le_mul_right (by norm_num : (0:Int) < 86400000)]
  exact Nat.cast_le

lemma diffDaysOf_natAbs (s e : CivilDate) :
    diffDaysOf s e = ((rataDie e : Int) - (rataDie s : Int)).natAbs := by
  unfold diffDaysOf ceilDiv getTime
  have heq : (rataDie e : Int) * 86400000 - (rataDie s : Int) * 86400000 =
      ((rataDie e : Int) - rataDie s) * 86400000 := by ring
  rw [heq, Int.natAbs_mul]
  have : ((86400000 : Int)).natAbs = 86400000 := rfl
  rw [this]
  omega

lemma diffDaysOf_eq {s e : CivilDate} (h : rataDie s ≤ rataDie e) :
    diffDaysOf s e = rataDie e - rataDie s := by
  rw [diffDaysOf_natAbs]
  omega

/-! ## Fill phase -/

lemma processItem_length (isM : Bool) (m : List (String × ChartData)) (str : String)
    (b : Bool) : (processItem isM m str b).length = m.length := by
  unfold processItem
  split
  · rfl
  · simp

lemma foldl_length_preserved {β : Type}
    (f : List (String × ChartData) → β → List (String × ChartData))
    (hf : ∀ m x, (f m x).length = m.length) :
    ∀ (l : List β) (m : List (String × ChartData)), (l.foldl f m).length = m.length := by
  intro l
  induction l with
  | nil => intro m; rfl
  | cons x t ih =>
    intro m
    simp only [List.foldl_cons]
    rw [ih, hf]

/-! ## The two loop instantiations -/

lemma validDate_of_monthInv {d : CivilDate} (h1 : d.day = 1) (h2 : 1 ≤ d.month)
    (h3 : d.month ≤ 12) (h4 : 1 ≤ d.year) : ValidDate d := by
  have := daysInMonth_bounds d.year d.month
  exact ⟨h4, h2, h3, by omega, by omega⟩

lemma bucketLoop_daily (endT : CivilDate) (hV : ValidDate endT) :
    ∀ (current : CivilDate), ValidDate current →
      bucketLoop false endT 1002 current 0 [] =
        (walk false (min (if rataDie current ≤ rataDie endT then
            rataDie endT + 1 - rataDie current else 0) 1001) current).map
          (fun d => (bucketKey false d, mkBucket false d)) := by
  intro current hcur
  have h := bucketLoop_spec false endT rataDie ValidDate
    (fun d hd => by
      constructor
      · show ValidDate (bucketStep false d)
        unfold bucketStep
        simpa using validDate_nextDay hd
      · show rataDie (bucketStep false d) = rataDie d + 1
        unfold bucketStep
        simpa using rataDie_nextDay hd)
    (fun d hd => by
      unfold loopCond
      simp only [Bool.false_and, Bool.or_false, decide_eq_true_eq]
      exact getTime_le_iff d endT)
    (fun d d' hd hd' _ _ hne => by
      intro hkeq
      have hm : d.month < 100 := by have := hd.2.2.1; omega
      have hm' : d'.month < 100 := by have := hd'.2.2.1; omega
      have hdd : d.day < 100 := by
        have := hd.2.2.2.2
        have := daysInMonth_bounds d.year d.month
        omega
      have hdd' : d'.day < 100 := by
        have := hd'.2.2.2.2
        have := daysInMonth_bounds d'.year d'.month
        omega
      have := bucketKey_false_inj hm hm' hdd hdd' hkeq
      rw [this] at hne
      exact hne rfl)
    1002 0 current [] hcur rfl (by simp)
  simpa using h

lemma bucketLoop_monthly (endT : CivilDate) (hd1 : endT.day = 1) (hd2 : 1 ≤ endT.month)
    (hd3 : endT.month ≤ 12) (hd4 : 1 ≤ endT.year) :
    ∀ (current : CivilDate), current.day = 1 → 1 ≤ current.month → current.month ≤ 12 →
      1 ≤ current.year →
      bucketLoop true endT 1002 current 0 [] =
        (walk true (min (if monthIdx current ≤ monthIdx endT then
            monthIdx endT + 1 - monthIdx current else 0) 1001) current).map
          (fun d => (bucketKey true d, mkBucket true d)) := by
  intro current hc1 hc2 hc3 hc4
  have hVe : ValidDate endT := validDate_of_monthInv hd1 hd2 hd3 hd4
  have h := bucketLoop_spec true endT monthIdx
    (fun d => d.day = 1 ∧ 1 ≤ d.month ∧ d.month ≤ 12 ∧ 1 ≤ d.year)
    (fun d hd => by
      obtain ⟨i1, i2, i3, i4⟩ := hd
      have hr := nextMonth_ranges (d := d) i4 i2 i3
      refine ⟨⟨?_, hr.2.1, hr.2.2, hr.1⟩, ?_⟩
      · show (bucketStep true d).day = 1
        unfold bucketStep
        simpa [nextMonth_day] using i1
      · show monthIdx (bucketStep true d) = monthIdx d + 1
        unfold bucketStep
        simpa using monthIdx_nextMonth i2 i3)
    (fun d hd => by
      obtain ⟨i1, i2, i3, i4⟩ := hd
      have hVd : ValidDate d := validDate_of_monthInv i1 i2 i3 i4
      unfold loopCond
      simp only [Bool.true_and, Bool.or_eq_true, decide_eq_true_eq, Bool.and_eq_true,
        beq_iff_eq]
      constructor
      · rintro (hle | ⟨hmeq, hyeq⟩)
        · exact monthIdx_le_of_rataDie_le hVd hVe ((getTime_le_iff d endT).mp hle)
        · unfold monthIdx
          omega
      · intro hle
        left
        rw [getTime_le_iff]
        have hdm : d = ⟨d.year, d.month, 1⟩ := by
          obtain ⟨y, m, dd⟩ := d
          simp only at i1
          rw [i1]
        have hem : endT = ⟨endT.year, endT.month, 1⟩ := by
          obtain ⟨y, m, dd⟩ := endT
          simp only at hd1
          rw [hd1]
        rw [hdm, hem]
        apply rataDie_monthFirst_le i4 i2 i3 hd4 hd2 hd3
        unfold monthIdx at hle
        omega)
    (fun d d' hd hd' _ _ hne => by
      intro hkeq
      have hm : d.month < 100 := by have := hd.2.2.1; omega
      have hm' : d'.month < 100 := by have := hd'.2.2.1; omega
      have := bucketKey_true_inj hm hm' hkeq
      unfold monthIdx at hne
      omega)
    1002 0 current [] ⟨hc1, hc2, hc3, hc4⟩ rfl (by simp)
  simpa using h

/-! ## The Timeline Aggregator, assembled -/

lemma chartData_spec (prs : List GitHubPR) (commits : List GitHubCommit)
    (startDate endDate : String) (s e : CivilDate)
    (hs : parseDate startDate = some s) (he : parseDate endDate = some e)
    (hys : 1 ≤ s.year) (hye : 1 ≤ e.year) (hse : rataDie s ≤ rataDie e) :
    (chartData prs commits startDate endDate).length =
      (if 60 < rataDie e - rataDie s then min (monthsSpanned s e) 1001
       else daysSpanned s e) ∧
    List.Pairwise tsLE (chartData prs commits startDate endDate) ∧
    (prs = [] → commits = [] →
      ∀ b ∈ chartData prs commits startDate endDate, b.PRs = 0 ∧ b.Commits = 0) := by
  obtain ⟨hsm1, hsm2, hsd1, hsd2, hsy⟩ := parseDate_props hs
  obtain ⟨hem1, hem2, hed1, hed2, hey⟩ := parseDate_props he
  have hVs : ValidDate s := ⟨hys, hsm1, hsm2, hsd1, hsd2⟩
  have hVe : ValidDate e := ⟨hye, hem1, hem2, hed1, hed2⟩
  have hdiff : diffDaysOf s e = rataDie e - rataDie s := diffDaysOf_eq hse
  have hchart : chartData prs commits startDate endDate =
      List.insertionSort tsLE
        ((commits.foldl (fun m c => processItem (isMonthlyFor s e) m c.date false)
          (prs.foldl (fun m pr => processItem (isMonthlyFor s e) m pr.created_at true)
            (bucketLoop (isMonthlyFor s e)
              (if isMonthlyFor s e then { e with day := 1 } else e) 1002
              (if isMonthlyFor s e then { s with day := 1 } else s) 0 []))).map
          (fun p => p.2)) := by
    unfold chartData
    rw [hs, he]
  by_cases hM : 60 < rataDie e - rataDie s
  · -- monthly mode
    have hisM : isMonthlyFor s e = true := by
      unfold isMonthlyFor
      rw [hdiff]
      exact decide_eq_true hM
    rw [hisM] at hchart
    simp only [if_true] at hchart
    have hidxle : monthIdx s ≤ monthIdx e := monthIdx_le_of_rataDie_le hVs hVe hse
    have hloop := bucketLoop_monthly { e with day := 1 } rfl hem1 hem2 hye
      { s with day := 1 } rfl hsm1 hsm2 hys
    have hidxs : monthIdx { s with day := 1 } = monthIdx s := rfl
    have hidxe : monthIdx { e with day := 1 } = monthIdx e := rfl
    rw [hidxs, hidxe, if_pos hidxle] at hloop
    have hspan : monthIdx e + 1 - monthIdx s = monthsSpanned s e := rfl
    rw [hspan] at hloop
    rw [hloop] at hchart
    rw [if_pos hM]
    refine ⟨?_, ?_, ?_⟩
    · rw [hchart, (List.perm_insertionSort tsLE _).length_eq, List.length_map,
        foldl_length_preserved (fun m c => processItem true m c.date false)
          (fun m c => processItem_length true m c.date false) commits,
        foldl_length_preserved (fun m pr => processItem true m pr.created_at true)
          (fun m pr => processItem_length true m pr.created_at true) prs,
        List.length_map, walk_length]
    · rw [hchart]
      exact List.sorted_insertionSort tsLE _
    · intro hp hc
      subst hp
      subst hc
      simp only [List.foldl_nil] at hchart
      intro b hb
      rw [hchart] at hb
      rw [(List.perm_insertionSort tsLE _).mem_iff, List.map_map, List.mem_map] at hb
      obtain ⟨d, _, hbd⟩ := hb
      rw [← hbd]
      exact ⟨rfl, rfl⟩
  · -- daily mode
    have hisM : isMonthlyFor s e = false := by
      unfold isMonthlyFor
      rw [hdiff]
      exact decide_eq_false hM
    rw [hisM] at hchart
    simp only [Bool.false_eq_true, if_false] at hchart
    have hloop := bucketLoop_daily e hVe s hVs
    rw [if_pos hse] at hloop
    have hspan : rataDie e + 1 - rataDie s = daysSpanned s e := rfl
    rw [hspan] at hloop
    have hmin : min (daysSpanned s e) 1001 = daysSpanned s e := by
      unfold daysSpanned
      omega
    rw [hmin] at hloop
    rw [hloop] at hchart
    rw [if_neg hM]
    refine ⟨?_, ?_, ?_⟩
    · rw [hchart, (List.perm_insertionSort tsLE _).length_eq, List.length_map,
        foldl_length_preserved (fun m c => processItem false m c.date false)
          (fun m c => processItem_length false m c.date false) commits,
        foldl_length_preserved (fun m pr => processItem false m pr.created_at true)
          (fun m pr => processItem_length false m pr.created_at true) prs,
        List.length_map, walk_length]
    · rw [hchart]
      exact List.sorted_insertionSort tsLE _
    · intro hp hc
      subst hp
      subst hc
      simp only [List.foldl_nil] at hchart
      intro b hb
      rw [hchart] at hb
      rw [(List.perm_insertionSort tsLE _).mem_iff, List.map_map, List.mem_map] at hb
      obtain ⟨d, _, hbd⟩ := hb
      rw [← hbd]
      exact ⟨rfl, rfl⟩

/-- C3 (amended): for every PR and commit set and every parseable date range
with start ≤ end, the Timeline Aggregator's output is sorted ascending by
each bucket's numeric ordering timestamp, and its length is exactly the
number of calendar days (daily mode, span ≤ 60 days) or calendar months
(monthly mode) spanned inclusively by the range — except that the
`loops++ > 1000` guard truncates the grid at 1001 buckets, so a range
spanning more than 1001 months yields exactly 1001 buckets; with zero PRs
and zero commits every bucket in the output has PR count 0 and Commit
count 0, and no error is raised (the aggregator is a total function). -/
theorem C3_timeline_structure :
    ∀ (prs : List GitHubPR) (commits : List GitHubCommit) (startDate endDate : String)
      (s e : CivilDate),
      parseDate startDate = some s → parseDate endDate = some e →
      1 ≤ s.year → 1 ≤ e.year → rataDie s ≤ rataDie e →
      List.Pairwise tsLE (chartData prs commits startDate endDate) ∧
      (chartData prs commits startDate endDate).length =
        (if 60 < rataDie e - rataDie s then min (monthsSpanned s e) 1001
         else daysSpanned s e) ∧
      (prs = [] → commits = [] →
        ∀ b ∈ chartData prs commits startDate endDate, b.PRs = 0 ∧ b.Commits = 0) := by
  intro prs commits startDate endDate s e hs he hys hye hse
  obtain ⟨h1, h2, h3⟩ := chartData_spec prs commits startDate endDate s e hs he hys hye hse
  exact ⟨h2, h1, h3⟩

set_option maxRecDepth 8000 in
/-- C3 counterexample.  The claim says the output length is exactly the
number of calendar months spanned and never exceeds the 1000-step iteration
cap.  For the range 0001-01-01 to 0100-01-01 (1189 months) the output has
1001 buckets: not the number of months spanned, and more than 1000 — the
post-increment guard `loops++ > 1000` admits 1001 iterations. -/
theorem C3_counterexample :
    (chartData [] [] "0001-01-01" "0100-01-01").length = 1001 ∧
    monthsSpanned ⟨1, 1, 1⟩ ⟨100, 1, 1⟩ = 1189 ∧
    (chartData [] [] "0001-01-01" "0100-01-01").length ≠ 1189 ∧
    1000 < (chartData [] [] "0001-01-01" "0100-01-01").length := by
  have h := (chartData_spec [] [] "0001-01-01" "0100-01-01" ⟨1, 1, 1⟩ ⟨100, 1, 1⟩
    (by decide) (by decide) (by decide) (by decide) (by decide)).1
  rw [if_pos (by decide)] at h
  rw [show min (monthsSpanned ⟨1, 1, 1⟩ ⟨100, 1, 1⟩) 1001 = 1001 from by decide] at h
  refine ⟨h, by decide, ?_, ?_⟩
  · rw [h]
    decide
  · rw [h]
    decide

set_option maxRecDepth 8000 in
/-- C3 witness: the amended timeline theorem applied to the concrete
10-day range 0009-01-01 to 0009-01-10 with no events: 10 daily buckets,
sorted, all zero. -/
theorem C3_witness :
    parseDate "0009-01-01" = some ⟨9, 1, 1⟩ ∧
    parseDate "0009-01-10" = some ⟨9, 1, 10⟩ ∧
    List.Pairwise tsLE (chartData [] [] "0009-01-01" "0009-01-10") ∧
    (chartData [] [] "0009-01-01" "0009-01-10").length = 10 ∧
    (∀ b ∈ chartData [] [] "0009-01-01" "0009-01-10", b.PRs = 0 ∧ b.Commits = 0) := by
  have h := C3_timeline_structure [] [] "0009-01-01" "0009-01-10" ⟨9, 1, 1⟩ ⟨9, 1, 10⟩
    (by decide) (by decide) (by decide) (by decide) (by decide)
  refine ⟨by decide, by decide, h.1, ?_, fun b hb => h.2.2 rfl rfl b hb⟩
  rw [h.2.1]
  decide

set_option maxRecDepth 8000 in
/-- C4: the Timeline Aggregator chooses monthly buckets exactly when the
day-span of the range exceeds 60 days: the code's
`Math.ceil(|end - start| / 86400000)` equals the plain day distance of the
two civil dates, and `isMonthly` is true iff that distance exceeds 60.  A
range of exactly 60 days (0004-01-01 to 0004-03-01, a leap year) is daily
and yields 61 daily buckets; a range of 61 days (0004-01-01 to 0004-03-02)
is monthly and yields 3 monthly buckets. -/
theorem C4_granularity_boundary :
    (∀ s e : CivilDate, diffDaysOf s e = ((rataDie e : Int) - (rataDie s : Int)).natAbs) ∧
    (∀ s e : CivilDate, isMonthlyFor s e = true ↔
      60 < ((rataDie e : Int) - (rataDie s : Int)).natAbs) ∧
    isMonthlyFor ⟨4, 1, 1⟩ ⟨4, 3, 1⟩ = false ∧
    isMonthlyFor ⟨4, 1, 1⟩ ⟨4, 3, 2⟩ = true ∧
    (chartData [] [] "0004-01-01" "0004-03-01").length = 61 ∧
    (chartData [] [] "0004-01-01" "0004-03-02").length = 3 := by
  refine ⟨fun s e => diffDaysOf_natAbs s e, ?_, by decide, by decide, ?_, ?_⟩
  · intro s e
    unfold isMonthlyFor
    rw [diffDaysOf_natAbs]
    exact decide_eq_true_iff
  · have h := (chartData_spec [] [] "0004-01-01" "0004-03-01" ⟨4, 1, 1⟩ ⟨4, 3, 1⟩
      (by decide) (by decide) (by decide) (by decide) (by decide)).1
    rw [if_neg (by decide)] at h
    rw [h]
    decide
  · have h := (chartData_spec [] [] "0004-01-01" "0004-03-02" ⟨4, 1, 1⟩ ⟨4, 3, 2⟩
      (by decide) (by decide) (by decide) (by decide) (by decide)).1
    rw [if_pos (by decide)] at h
    rw [h]
    decide

end DevBrag
